import Mathlib

/-!
# Request lifecycle of the `exp` module (x/exp/keeper/exp_request.go)

A shallow embedding of the burn / mint request engine of the keeper and of the
status-bucketed request index it works on.

Conventions of the embedding

* `sdk.Int` is `Int`; `sdk.Dec` is a fixed-point number with 18 decimals, kept
  as its raw integer (`Dec.raw = value * 10^18`).  Amounts are taken within the
  range of the library types (no overflow panics).
* A comparison `x == sdk.NewInt(0)` / `x == sdk.NewDec(0)` of the source is Go struct
  equality on a type that wraps a `*big.Int`: it compares pointers and is never
  true (`eqNewInt`, `eqNewDec`).  The four guards written that way (lines 284, 295,
  330, 349) are kept in the definitions with the branch they can never take.
* A Go `error` result is `Ret.ok` (nil), `Ret.err e`, and a run-time panic is
  `Ret.panicked`; the context returned with a panic is the one reached when the
  panic happened.
* The codec (`cdc.MustMarshal` / `cdc.Unmarshal`) is taken as a faithful round trip:
  the store holds the records themselves.
* The ledger (bank keeper, whitelist, mint / burn helpers) is an external
  collaborator.  Its state is the list of calls it has accepted so far; whether
  it accepts a call and the pooled balance it reports are parameters of the
  keeper.
-/

namespace Craft

/-- Status of a request (`types.StatusRequest`): Pending is `StatusOnGoingRequest`. -/
inductive StatusRequest
  | StatusOnGoingRequest
  | StatusCompleteRequest
  | StatusNoFundRequest
  | StatusExpiredRequest
  deriving DecidableEq, Repr

open StatusRequest

/-- Decoded account address (`sdk.AccAddress`), a byte string. -/
abbrev AccAddress := List Nat

/-- Coin of the bank module (`sdk.Coin`). -/
structure Coin where
  Denom : String
  Amount : Int
  deriving DecidableEq, Repr

/-- Fixed-point decimal (`sdk.Dec`), 18 decimals, stored as the raw integer. -/
structure Dec where
  raw : Int
  deriving DecidableEq, Repr

/-- Scale of `sdk.Dec`: one unit is `10^18` raw. -/
def Dec.scale : Int := 1000000000000000000

/-- Decimal of an integer (`sdk.NewDec`). -/
def NewDec (n : Int) : Dec := ⟨n * Dec.scale⟩

/-- Exact product of a decimal and an integer (`Dec.MulInt`). -/
def Dec.MulInt (d : Dec) (i : Int) : Dec := ⟨d.raw * i⟩

/-- Integer part, rounded toward zero (`Dec.TruncateInt`). -/
def Dec.TruncateInt (d : Dec) : Int := Int.tdiv d.raw Dec.scale

/-- Burn request record (`types.BurnRequest`); `BurnTokenLeft` is a `*sdk.Coin`,
`none` is the nil pointer. -/
structure BurnRequest where
  Account : String
  BurnTokenLeft : Option Coin
  RequestTime : Int
  Status : StatusRequest
  deriving DecidableEq, Repr

/-- Mint request record (`types.MintRequest`). -/
structure MintRequest where
  Account : String
  DaoTokenLeft : Dec
  DaoTokenMinted : Dec
  Status : StatusRequest
  RequestTime : Int
  deriving DecidableEq, Repr

/-- Calls the keeper makes to the ledger collaborator. -/
inductive LedgerCall
  | SendCoinsFromModuleToAccount (recipient : AccAddress) (amt : List Coin)
  | BurnExpFromAccount (amt : List Coin) (account : AccAddress)
  | addAddressToWhiteList (account : AccAddress) (maxToken : Coin)
  | MintExpForAccount (amt : List Coin) (account : AccAddress)
  deriving DecidableEq, Repr

/-- Errors returned by the keeper. -/
inductive Err
  | invalidAddress
  | ErrInputOutputMismatch
  | ErrInvalidKey
  | ledgerRejected (c : LedgerCall)
  deriving DecidableEq, Repr

/-- Outcome of a keeper call: nil, an error, or a run-time panic. -/
inductive Ret
  | ok
  | err (e : Err)
  | panicked
  deriving DecidableEq, Repr

/-- Modelled from the spec: the key builders `GetBurnRequestAddressBytes` /
`GetMintRequestAddressBytes` of types/keys.go are not part of the sources; the spec
gives `key(status, account) = status_byte || account_bytes`, a deterministic
encoding of the pair, under one collection prefix per request type.  The
embedding keys each collection by the pair itself. -/
abbrev RequestKey := StatusRequest × AccAddress

/-- One collection of the key-value store: an association list. -/
abbrev Store (α : Type) := List (RequestKey × α)

/-- Value under a key (`store.Get`), `none` when the key is absent. -/
def Store.Get {α : Type} : Store α → RequestKey → Option α
  | [], _ => none
  | (k, v) :: rest, key => if k = key then some v else Store.Get rest key

/-- Presence of a key (`store.Has`). -/
def Store.Has {α : Type} (s : Store α) (key : RequestKey) : Bool :=
  (s.Get key).isSome

/-- Removal of a key (`store.Delete`). -/
def Store.Delete {α : Type} (s : Store α) (key : RequestKey) : Store α :=
  s.filter (fun e => decide (e.1 ≠ key))

/-- Upsert at a key (`store.Set`). -/
def Store.Set {α : Type} (s : Store α) (key : RequestKey) (v : α) : Store α :=
  (key, v) :: s.Delete key

/-- Execution context: the two request collections of the module store, the
ledger (the calls it has accepted, oldest first) and the block time. -/
structure Ctx where
  burnStore : Store BurnRequest
  mintStore : Store MintRequest
  ledger : List LedgerCall
  BlockTime : Int
  deriving DecidableEq, Repr

/-- Keeper with its collaborators: module parameters, the price of the DAO
asset, the bech32 decoder and the ledger. -/
structure ExpKeeper where
  GetDenom : String
  GetIbcDenom : String
  GetDaoTokenPrice : Dec
  GetBurnExpPeriod : Int
  AccAddressFromBech32 : String → Option AccAddress
  GetBalance : List LedgerCall → Int
  ledgerAccepts : List LedgerCall → LedgerCall → Bool

/-- One call to the ledger: accepted calls are appended to the ledger state,
a rejected call (`none`) leaves it as it was. -/
def callLedger (k : ExpKeeper) (ctx : Ctx) (c : LedgerCall) : Option Ctx :=
  if k.ledgerAccepts ctx.ledger c then some { ctx with ledger := ctx.ledger ++ [c] } else none

/-- Validated coin (`sdk.NewCoin`): panics (`none`) on a negative amount. -/
def NewCoin (denom : String) (amount : Int) : Option Coin :=
  if amount < 0 then none else some ⟨denom, amount⟩

/-- Coin set of one coin (`sdk.NewCoins`): zero coins are dropped, a negative
amount panics (`none`). -/
def NewCoins (c : Coin) : Option (List Coin) :=
  if c.Amount < 0 then none else if c.Amount = 0 then some [] else some [c]

/-- Comparison of two coins (`Coin.IsGTE`): panics (`none`) on different denoms. -/
def Coin.IsGTE (c other : Coin) : Option Bool :=
  if c.Denom ≠ other.Denom then none else some (decide (other.Amount ≤ c.Amount))

/-- Source: `SetBurnRequest` (lines 49-58); panics (`none`) on an undecodable account. -/
def SetBurnRequest (k : ExpKeeper) (ctx : Ctx) (burnRequest : BurnRequest) : Option Ctx :=
  match k.AccAddressFromBech32 burnRequest.Account with
  | none => none
  | some accAddress =>
    some { ctx with burnStore := ctx.burnStore.Set (burnRequest.Status, accAddress) burnRequest }

/-- Source: `RemoveBurnRequest` (lines 106-112); a decoding error is ignored and
leaves the nil address. -/
def RemoveBurnRequest (k : ExpKeeper) (ctx : Ctx) (burnRequest : BurnRequest) : Ctx :=
  let accAddress := (k.AccAddressFromBech32 burnRequest.Account).getD []
  if ctx.burnStore.Has (burnRequest.Status, accAddress) then
    { ctx with burnStore := ctx.burnStore.Delete (burnRequest.Status, accAddress) }
  else ctx

/-- Source: `GetBurnRequestByKey` (lines 60-75). -/
def GetBurnRequestByKey (ctx : Ctx) (key : RequestKey) : Except Err BurnRequest :=
  if !ctx.burnStore.Has key then .error .ErrInvalidKey
  else match ctx.burnStore.Get key with
    | some burnRequest => .ok burnRequest
    | none => .error .ErrInvalidKey

/-- Source: `SetMintRequest` (lines 172-181). -/
def SetMintRequest (k : ExpKeeper) (ctx : Ctx) (mintRequest : MintRequest) : Option Ctx :=
  match k.AccAddressFromBech32 mintRequest.Account with
  | none => none
  | some accAddress =>
    some { ctx with mintStore := ctx.mintStore.Set (mintRequest.Status, accAddress) mintRequest }

/-- Source: `RemoveMintRequest` (lines 164-170). -/
def RemoveMintRequest (k : ExpKeeper) (ctx : Ctx) (mintRequest : MintRequest) : Ctx :=
  let accAddress := (k.AccAddressFromBech32 mintRequest.Account).getD []
  if ctx.mintStore.Has (mintRequest.Status, accAddress) then
    { ctx with mintStore := ctx.mintStore.Delete (mintRequest.Status, accAddress) }
  else ctx

/-- Source: `GetMintRequestByKey` (lines 200-215). -/
def GetMintRequestByKey (ctx : Ctx) (key : RequestKey) : Except Err MintRequest :=
  if !ctx.mintStore.Has key then .error .ErrInvalidKey
  else match ctx.mintStore.Get key with
    | some mintRequest => .ok mintRequest
    | none => .error .ErrInvalidKey

/-- Source: `GetBurnRequest` (lines 123-142): the buckets are tried in the order
Complete, NoFunds, Pending, Expired. -/
def GetBurnRequest (ctx : Ctx) (accAddress : AccAddress) : Except Err BurnRequest :=
  if ctx.burnStore.Has (StatusCompleteRequest, accAddress) then
    GetBurnRequestByKey ctx (StatusCompleteRequest, accAddress)
  else if ctx.burnStore.Has (StatusNoFundRequest, accAddress) then
    GetBurnRequestByKey ctx (StatusNoFundRequest, accAddress)
  else if ctx.burnStore.Has (StatusOnGoingRequest, accAddress) then
    GetBurnRequestByKey ctx (StatusOnGoingRequest, accAddress)
  else if ctx.burnStore.Has (StatusExpiredRequest, accAddress) then
    GetBurnRequestByKey ctx (StatusExpiredRequest, accAddress)
  else .error .ErrInvalidKey

/-- Source: `GetMintRequest` (lines 256-276). -/
def GetMintRequest (ctx : Ctx) (accAddress : AccAddress) : Except Err MintRequest :=
  if ctx.mintStore.Has (StatusCompleteRequest, accAddress) then
    GetMintRequestByKey ctx (StatusCompleteRequest, accAddress)
  else if ctx.mintStore.Has (StatusNoFundRequest, accAddress) then
    GetMintRequestByKey ctx (StatusNoFundRequest, accAddress)
  else if ctx.mintStore.Has (StatusOnGoingRequest, accAddress) then
    GetMintRequestByKey ctx (StatusOnGoingRequest, accAddress)
  else if ctx.mintStore.Has (StatusExpiredRequest, accAddress) then
    GetMintRequestByKey ctx (StatusExpiredRequest, accAddress)
  else .error .ErrInvalidKey

/-- Source: `ValidateBurnRequestByTime` (lines 369-372); times are instants on the
integer time line, `Add` is addition and `Before` is strict order. -/
def ValidateBurnRequestByTime (k : ExpKeeper) (ctx : Ctx) (burnRequest : BurnRequest) : Bool :=
  let burnPeriod := k.GetBurnExpPeriod
  decide (burnRequest.RequestTime + burnPeriod < ctx.BlockTime)

/-- Source: `ValidateMintRequestByTime` (lines 374-377); the period read is the
burn period, as in the source. -/
def ValidateMintRequestByTime (k : ExpKeeper) (ctx : Ctx) (mintRequest : MintRequest) : Bool :=
  let mintPeriod := k.GetBurnExpPeriod
  decide (mintRequest.RequestTime + mintPeriod < ctx.BlockTime)

/-- Source: `calculateStableTokenReturn` (lines 361-367): the decimal and the error. -/
def calculateStableTokenReturn (k : ExpKeeper) (expCoin : Coin) : Dec × Option Err :=
  if expCoin.Denom ≠ k.GetDenom then (NewDec 0, some .ErrInputOutputMismatch)
  else (k.GetDaoTokenPrice.MulInt expCoin.Amount, none)

/-- Go `x == sdk.NewInt(n)`.  `sdk.Int` is a struct whose only field is a `*big.Int`,
so `==` compares the two pointers, and `sdk.NewInt` allocates its number afresh:
the comparison is never true, whatever the numbers are. -/
def eqNewInt (_x _n : Int) : Bool := false

/-- Go `d == sdk.NewDec(n)`.  `sdk.Dec` is a struct whose only field is a `*big.Int`
and `sdk.NewDec` allocates afresh: the comparison is never true. -/
def eqNewDec (_d : Dec) (_n : Int) : Bool := false

/-- Result of `ExecuteBurnExp`: the returned error, the context, and the coin
the caller's `BurnTokenLeft` pointer refers to after the call (the request is
passed by value, the coin it points to is shared with the caller). -/
structure BurnExec where
  ret : Ret
  ctx : Ctx
  BurnTokenLeft : Option Coin
  deriving DecidableEq, Repr

/-- Source: `ExecuteBurnExp`, lines 290-326: payout and burn for a request whose
coin pointer is not nil.  `tokenLeft` is the pointed-to coin, `burnRequest` the
local copy of the request.  The second component is the local copy as it is when
the function returns. -/
def ExecuteBurnExp.settle (k : ExpKeeper) (ctx : Ctx) (burnRequest : BurnRequest)
    (burnAccount : AccAddress) (tokenLeft : Coin) : BurnExec × BurnRequest :=
  -- line 290: the error of `calculateStableTokenReturn` is discarded
  let tokenReturn := (calculateStableTokenReturn k tokenLeft).1
  -- lines 292-293
  match NewCoin k.GetIbcDenom tokenReturn.TruncateInt with
  | none => (⟨.panicked, ctx, some tokenLeft⟩, burnRequest)
  | some coinWilReceive =>
    let coinModule : Coin := ⟨k.GetIbcDenom, k.GetBalance ctx.ledger⟩
    -- lines 295-297: a pointer comparison, never true
    if eqNewInt coinModule.Amount 0 then (⟨.ok, ctx, some tokenLeft⟩, burnRequest)
    else
      -- line 299
      match coinWilReceive.IsGTE coinModule with
      | none => (⟨.panicked, ctx, some tokenLeft⟩, burnRequest)
      | some true =>
        -- lines 300-306: the request is not written back
        match NewCoins coinModule with
        | none => (⟨.panicked, ctx, some tokenLeft⟩, burnRequest)
        | some coins =>
          match callLedger k ctx (.SendCoinsFromModuleToAccount burnAccount coins) with
          | none =>
            (⟨.err (.ledgerRejected (.SendCoinsFromModuleToAccount burnAccount coins)), ctx,
              some tokenLeft⟩, burnRequest)
          | some ctx1 =>
            -- line 305: assignment through the shared pointer
            let cell : Coin :=
              { tokenLeft with Amount := coinWilReceive.Amount - coinModule.Amount }
            match callLedger k ctx1 (.BurnExpFromAccount coins burnAccount) with
            | none =>
              (⟨.err (.ledgerRejected (.BurnExpFromAccount coins burnAccount)), ctx1, some cell⟩,
                { burnRequest with BurnTokenLeft := some cell })
            | some ctx2 => (⟨.ok, ctx2, some cell⟩, { burnRequest with BurnTokenLeft := some cell })
      | some false =>
        -- lines 310-326
        match NewCoins coinWilReceive with
        | none => (⟨.panicked, ctx, some tokenLeft⟩, burnRequest)
        | some coins =>
          match callLedger k ctx (.SendCoinsFromModuleToAccount burnAccount coins) with
          -- line 312: `return nil` on a failed transfer
          | none => (⟨.ok, ctx, some tokenLeft⟩, burnRequest)
          | some ctx1 =>
            match NewCoins tokenLeft with
            | none => (⟨.panicked, ctx1, some tokenLeft⟩, burnRequest)
            | some burnCoins =>
              match callLedger k ctx1 (.BurnExpFromAccount burnCoins burnAccount) with
              | none =>
                (⟨.err (.ledgerRejected (.BurnExpFromAccount burnCoins burnAccount)), ctx1,
                  some tokenLeft⟩, burnRequest)
              | some ctx2 =>
                -- lines 320-324: the local pointer is set to nil, the caller keeps its coin
                let cleared : BurnRequest := { burnRequest with BurnTokenLeft := none }
                let ctx3 := RemoveBurnRequest k ctx2 cleared
                let completed : BurnRequest := { cleared with Status := StatusCompleteRequest }
                match SetBurnRequest k ctx3 completed with
                | none => (⟨.panicked, ctx3, some tokenLeft⟩, completed)
                | some ctx4 => (⟨.ok, ctx4, some tokenLeft⟩, completed)

/-- Source: `ExecuteBurnExp` (lines 278-327), with the local copy of the request as
it is when the function returns. -/
def ExecuteBurnExp.run (k : ExpKeeper) (ctx : Ctx) (burnRequest : BurnRequest) :
    BurnExec × BurnRequest :=
  match k.AccAddressFromBech32 burnRequest.Account with
  | none => (⟨.err .invalidAddress, ctx, burnRequest.BurnTokenLeft⟩, burnRequest)
  | some burnAccount =>
    -- line 284 dereferences the pointer: nil panics
    match burnRequest.BurnTokenLeft with
    | none => (⟨.panicked, ctx, none⟩, burnRequest)
    | some tokenLeft =>
      -- lines 284-288: a pointer comparison, never true; no return after the re-insert
      if eqNewInt tokenLeft.Amount 0 then
        let ctx1 := RemoveBurnRequest k ctx burnRequest
        let completed : BurnRequest := { burnRequest with Status := StatusCompleteRequest }
        match SetBurnRequest k ctx1 completed with
        | none => (⟨.panicked, ctx1, some tokenLeft⟩, completed)
        | some ctx2 => ExecuteBurnExp.settle k ctx2 completed burnAccount tokenLeft
      else ExecuteBurnExp.settle k ctx burnRequest burnAccount tokenLeft

/-- Source: `ExecuteBurnExp` (lines 278-327): what the caller observes. -/
def ExecuteBurnExp (k : ExpKeeper) (ctx : Ctx) (burnRequest : BurnRequest) : BurnExec :=
  (ExecuteBurnExp.run k ctx burnRequest).1

/-- Source: `ExecuteMintExp` (lines 329-358), with the local copy of the request as
it is when the function returns. -/
def ExecuteMintExp.run (k : ExpKeeper) (ctx : Ctx) (mintRequest : MintRequest) :
    (Ret × Ctx) × MintRequest :=
  -- lines 330-333: a pointer comparison, never true; the status is set on the local
  -- copy only
  if eqNewDec mintRequest.DaoTokenMinted 0 then
    ((.ok, ctx), { mintRequest with Status := StatusNoFundRequest })
  else
    -- line 335: the decoding error is ignored
    let memberAccount := (k.AccAddressFromBech32 mintRequest.Account).getD []
    match NewCoin k.GetDenom mintRequest.DaoTokenMinted.TruncateInt with
    | none => ((.panicked, ctx), mintRequest)
    | some maxToken =>
      match callLedger k ctx (.addAddressToWhiteList memberAccount maxToken) with
      | none =>
        ((.err (.ledgerRejected (.addAddressToWhiteList memberAccount maxToken)), ctx),
          mintRequest)
      | some ctx1 =>
        match NewCoins maxToken with
        | none => ((.panicked, ctx1), mintRequest)
        | some coins =>
          match callLedger k ctx1 (.MintExpForAccount coins memberAccount) with
          | none =>
            ((.err (.ledgerRejected (.MintExpForAccount coins memberAccount)), ctx1),
              mintRequest)
          | some ctx2 =>
            let ctx3 := RemoveMintRequest k ctx2 mintRequest
            -- line 349: a pointer comparison, never true
            let updated : MintRequest :=
              if eqNewDec mintRequest.DaoTokenLeft 0 then
                { mintRequest with Status := StatusCompleteRequest }
              else { mintRequest with Status := StatusExpiredRequest }
            match SetMintRequest k ctx3 updated with
            | none => ((.panicked, ctx3), updated)
            | some ctx4 => ((.ok, ctx4), updated)

/-- Source: `ExecuteMintExp` (lines 329-358): the returned error and the context. -/
def ExecuteMintExp (k : ExpKeeper) (ctx : Ctx) (mintRequest : MintRequest) : Ret × Ctx :=
  (ExecuteMintExp.run k ctx mintRequest).1

/-! ### Bucket iteration and parameter validation -/

/-- Order of two addresses as byte strings, the order of the keys inside one
status bucket. -/
def bytesLE : AccAddress → AccAddress → Bool
  | [], _ => true
  | _ :: _, [] => false
  | x :: xs, y :: ys => if x < y then true else if y < x then false else bytesLE xs ys

/-- Entries of one status bucket in key order: what the iterator
`sdk.KVStorePrefixIterator(store, GetBurnRequestsStatusBytes(status))` walks
through.  Stored values are kept decoded: the codec (`MustMarshal` / `Unmarshal`)
is taken as a faithful round trip. -/
def Store.bucket {α : Type} (s : Store α) (status : StatusRequest) : List (RequestKey × α) :=
  (s.filter (fun e => decide (e.1.1 = status))).insertionSort
    (fun x y => bytesLE x.1.2 y.1.2 = true)

/-- Loop of the iterators (lines 150-160, 242-252): the callback is run on the
items in order until it answers `true`; `σ` is the state the callback closes over. -/
def iterateUntil {α σ : Type} : List α → (σ → α → σ × Bool) → σ → σ
  | [], _, acc => acc
  | x :: xs, cb, acc =>
    if (cb acc x).2 then (cb acc x).1 else iterateUntil xs cb (cb acc x).1

/-- Source: `IterateStatusBurnRequests` (lines 145-161). -/
def IterateStatusBurnRequests {σ : Type} (ctx : Ctx) (status : StatusRequest)
    (cb : σ → BurnRequest → σ × Bool) (init : σ) : σ :=
  iterateUntil ((ctx.burnStore.bucket status).map Prod.snd) cb init

/-- Source: `GetBurnRequestsByStatus` (lines 114-120). -/
def GetBurnRequestsByStatus (ctx : Ctx) (status : StatusRequest) : List BurnRequest :=
  IterateStatusBurnRequests ctx status
    (fun burnRequests burnRequest => (burnRequests ++ [burnRequest], false)) []

/-- Source: `IterateStatusMintRequests` (lines 237-253). -/
def IterateStatusMintRequests {σ : Type} (ctx : Ctx) (status : StatusRequest)
    (cb : σ → MintRequest → σ × Bool) (init : σ) : σ :=
  iterateUntil ((ctx.mintStore.bucket status).map Prod.snd) cb init

/-- Source: `GetMintRequestsByStatus` (lines 183-189). -/
def GetMintRequestsByStatus (ctx : Ctx) (status : StatusRequest) : List MintRequest :=
  IterateStatusMintRequests ctx status
    (fun mintRequests mintRequest => (mintRequests ++ [mintRequest], false)) []

/-- Dynamic value handed to a parameter validator as `interface{}`. -/
inductive ParamValue
  | duration (v : Int)
  | uint64 (n : Nat)
  | str (s : String)
  | other
  deriving DecidableEq, Repr

/-- Errors of the parameter validators (`fmt.Errorf` messages of params.go). -/
inductive ParamErr
  | invalidParameterType
  | timeMustBePositive (v : Int)
  deriving DecidableEq, Repr

/-- Source: `validatePeriod` (params.go, lines 104-115); `none` is the nil error. -/
def validatePeriod (i : ParamValue) : Option ParamErr :=
  match i with
  | .duration v => if v ≤ 0 then some (.timeMustBePositive v) else none
  | _ => some .invalidParameterType

/-- Order in which the specification scans the status buckets for an account. -/
def lookupOrder : List StatusRequest :=
  [StatusCompleteRequest, StatusNoFundRequest, StatusOnGoingRequest, StatusExpiredRequest]

/-- Specification of `get_by_account`: the record of the first bucket, in the fixed
order, that has a key for the account. -/
def Store.firstMatch {α : Type} (s : Store α) (accAddress : AccAddress) : Option α :=
  lookupOrder.findSome? (fun status => s.Get (status, accAddress))

/-- Successive executions on one in-memory burn request: between two calls the
caller's request keeps its own fields and sees the coin as the previous call left it. -/
def executeBurnTimes (k : ExpKeeper) : Nat → Ctx → BurnRequest → Ctx × BurnRequest
  | 0, ctx, req => (ctx, req)
  | n + 1, ctx, req =>
    executeBurnTimes k n (ExecuteBurnExp k ctx req).ctx
      { req with BurnTokenLeft := (ExecuteBurnExp k ctx req).BurnTokenLeft }

/-- Every record of the burn collection has a non-negative amount left, when it
has one. -/
def StoredAmountsNonneg (s : Store BurnRequest) : Prop :=
  ∀ key rec c, s.Get key = some rec → rec.BurnTokenLeft = some c → 0 ≤ c.Amount

/-- The burn collection `after` is `before` with the request of address `a` re-filed
under Complete: the Complete key holds the request's record (status Complete, coin
as it was or cleared), the key of the request's own status is gone, every other
key is as before. -/
def RefiledComplete (before after : Store BurnRequest) (req : BurnRequest) (a : AccAddress) :
    Prop :=
  ∃ rec : BurnRequest,
    rec.Status = StatusCompleteRequest ∧ rec.Account = req.Account ∧
    rec.RequestTime = req.RequestTime ∧
    (rec.BurnTokenLeft = none ∨ rec.BurnTokenLeft = req.BurnTokenLeft) ∧
    after.Get (StatusCompleteRequest, a) = some rec ∧
    (req.Status ≠ StatusCompleteRequest → after.Get (req.Status, a) = none) ∧
    ∀ key, key ≠ (req.Status, a) → key ≠ (StatusCompleteRequest, a) →
      after.Get key = before.Get key

/-! ### Quantities the statements speak about -/

/-- Stable amount owed for `r` value tokens at the current price: `truncate(p * r)`. -/
def owed (k : ExpKeeper) (r : Int) : Int := (k.GetDaoTokenPrice.MulInt r).TruncateInt

/-- Pooled stable balance of the module account as the ledger reports it. -/
def pooled (k : ExpKeeper) (ctx : Ctx) : Int := k.GetBalance ctx.ledger

/-- Coin set holding `amount` of `denom` and nothing else, the value of
`sdk.NewCoins` on a coin with a non-negative amount. -/
def coinsOf (denom : String) (amount : Int) : List Coin :=
  if amount = 0 then [] else [⟨denom, amount⟩]

/-- Amount of a denom in a coin set (`Coins.AmountOf`). -/
def AmountOf (coins : List Coin) (denom : String) : Int :=
  ((coins.filter (fun c => decide (c.Denom = denom))).map Coin.Amount).sum

/-! ### A concrete keeper for the scenarios -/

/-- Total stable amount the ledger has sent out of the module account. -/
def sentTotal : List LedgerCall → Int
  | [] => 0
  | .SendCoinsFromModuleToAccount _ amt :: rest => (amt.map Coin.Amount).sum + sentTotal rest
  | _ :: rest => sentTotal rest

/-- Keeper of the scenarios: value token `uexp`, stable asset `token`, price 2,
a pool that starts at `startPool`, and a ledger that answers transfers with
`sendOk`, burns with `burnOk` and accepts the other calls. -/
def scenarioKeeper (startPool : Int) (sendOk burnOk : Bool) : ExpKeeper where
  GetDenom := "uexp"
  GetIbcDenom := "token"
  GetDaoTokenPrice := NewDec 2
  GetBurnExpPeriod := 60
  AccAddressFromBech32 := fun s => if s = "" then none else some (s.toList.map Char.toNat)
  GetBalance := fun l => startPool - sentTotal l
  ledgerAccepts := fun _ c =>
    match c with
    | .SendCoinsFromModuleToAccount _ _ => sendOk
    | .BurnExpFromAccount _ _ => burnOk
    | _ => true

/-- Keeper of the mint scenarios: as `scenarioKeeper 300 true true`, with a ledger
that answers whitelist registrations with `whitelistOk` and mints with `mintOk`. -/
def mintScenarioKeeper (whitelistOk mintOk : Bool) : ExpKeeper where
  GetDenom := "uexp"
  GetIbcDenom := "token"
  GetDaoTokenPrice := NewDec 2
  GetBurnExpPeriod := 60
  AccAddressFromBech32 := fun s => if s = "" then none else some (s.toList.map Char.toNat)
  GetBalance := fun l => 300 - sentTotal l
  ledgerAccepts := fun _ c =>
    match c with
    | .addAddressToWhiteList _ _ => whitelistOk
    | .MintExpForAccount _ _ => mintOk
    | _ => true

/-- Address bytes of the account `alice` under the scenario decoder. -/
def alice : AccAddress := [97, 108, 105, 99, 101]

/-- Pending burn request of `alice` with the given coin left. -/
def aliceBurn (left : Option Coin) : BurnRequest :=
  ⟨"alice", left, 0, StatusOnGoingRequest⟩

/-- Context whose burn collection holds exactly the given request of `alice`
under its status. -/
def burnCtx (r : BurnRequest) : Ctx :=
  ⟨[((r.Status, alice), r)], [], [], 10⟩

/-- Mint request of `alice` with the given amounts, in integer units. -/
def aliceMint (left minted : Int) (status : StatusRequest) : MintRequest :=
  ⟨"alice", NewDec left, NewDec minted, status, 0⟩

/-- Context whose mint collection holds exactly the given request of `alice`
under its status. -/
def mintCtx (r : MintRequest) : Ctx :=
  ⟨[], [((r.Status, alice), r)], [], 10⟩

/-! ### The key-value store -/

theorem Store.Get_Delete_self {α : Type} (s : Store α) (key : RequestKey) :
    (s.Delete key).Get key = none := by
  induction s with
  | nil => rfl
  | cons e rest ih =>
    obtain ⟨k, v⟩ := e
    by_cases h : k = key
    · simpa [Store.Delete, List.filter_cons, h] using ih
    · simpa [Store.Delete, List.filter_cons, h, Store.Get] using ih

theorem Store.Get_Delete_of_ne {α : Type} (s : Store α) (key other : RequestKey)
    (hne : other ≠ key) : (s.Delete key).Get other = s.Get other := by
  induction s with
  | nil => rfl
  | cons e rest ih =>
    obtain ⟨k, v⟩ := e
    by_cases h : k = key
    · subst h
      have hk : ¬ k = other := fun hk => hne hk.symm
      simpa [Store.Delete, List.filter_cons, Store.Get, hk] using ih
    · by_cases hk : k = other
      · subst hk
        simp [Store.Delete, List.filter_cons, h, Store.Get]
      · simpa [Store.Delete, List.filter_cons, h, Store.Get, hk] using ih

theorem Store.Get_Set_self {α : Type} (s : Store α) (key : RequestKey) (v : α) :
    (s.Set key v).Get key = some v := by
  simp [Store.Set, Store.Get]

theorem Store.Get_Set_of_ne {α : Type} (s : Store α) (key other : RequestKey) (v : α)
    (hne : other ≠ key) : (s.Set key v).Get other = s.Get other := by
  have hk : key ≠ other := fun hk => hne hk.symm
  simp [Store.Set, Store.Get, hk, Store.Get_Delete_of_ne s key other hne]

theorem Store.Delete_of_Get_none {α : Type} (s : Store α) (key : RequestKey)
    (h : s.Get key = none) : s.Delete key = s := by
  induction s with
  | nil => rfl
  | cons e rest ih =>
    obtain ⟨k, v⟩ := e
    by_cases hk : k = key
    · simp [Store.Get, hk] at h
    · simp only [Store.Get, hk, if_false] at h
      have := ih h
      simp only [Store.Delete] at this ⊢
      rw [List.filter_cons_of_pos (by simpa using hk), this]

theorem Store.mem_of_Get {α : Type} (s : Store α) (key : RequestKey) (v : α)
    (h : s.Get key = some v) : (key, v) ∈ s := by
  induction s with
  | nil => simp [Store.Get] at h
  | cons e rest ih =>
    obtain ⟨k, w⟩ := e
    by_cases hk : k = key
    · subst hk
      simp [Store.Get] at h
      simp [h]
    · simp only [Store.Get, hk, if_false] at h
      exact List.mem_cons_of_mem _ (ih h)

theorem Store.mem_Set_of_ne {α : Type} (s : Store α) (key other : RequestKey) (v w : α)
    (hne : other ≠ key) (h : (other, w) ∈ s) : (other, w) ∈ s.Set key v := by
  simp only [Store.Set, Store.Delete]
  refine List.mem_cons_of_mem _ (List.mem_filter.mpr ⟨h, ?_⟩)
  simpa using hne

/-! ### Coins and the ledger -/

theorem NewCoins_of_nonneg (denom : String) (a : Int) (h : 0 ≤ a) :
    NewCoins ⟨denom, a⟩ = some (coinsOf denom a) := by
  unfold NewCoins coinsOf
  have : ¬ a < 0 := not_lt.mpr h
  by_cases h0 : a = 0 <;> simp [this, h0]

theorem NewCoins_of_pos (denom : String) (a : Int) (h : 0 < a) :
    NewCoins ⟨denom, a⟩ = some [⟨denom, a⟩] := by
  unfold NewCoins
  have h1 : ¬ a < 0 := by omega
  have h2 : ¬ a = 0 := by omega
  simp [h1, h2]

theorem AmountOf_coinsOf (denom : String) (a : Int) : AmountOf (coinsOf denom a) denom = a := by
  unfold AmountOf coinsOf
  by_cases h0 : a = 0 <;> simp [h0]

theorem owed_zero (k : ExpKeeper) : owed k 0 = 0 := by
  simp [owed, Dec.MulInt, Dec.TruncateInt]

theorem TruncateInt_nonneg (d : Dec) (h : 0 ≤ d.raw) : 0 ≤ d.TruncateInt := by
  unfold Dec.TruncateInt
  exact Int.tdiv_nonneg h (by decide)

theorem callLedger_some (k : ExpKeeper) (ctx ctx1 : Ctx) (c : LedgerCall)
    (h : callLedger k ctx c = some ctx1) :
    ctx1 = { ctx with ledger := ctx.ledger ++ [c] } ∧ k.ledgerAccepts ctx.ledger c = true := by
  unfold callLedger at h
  split at h
  · rename_i hacc
    simp at h
    exact ⟨h.symm, hacc⟩
  · simp at h

theorem callLedger_none (k : ExpKeeper) (ctx : Ctx) (c : LedgerCall)
    (h : callLedger k ctx c = none) : k.ledgerAccepts ctx.ledger c = false := by
  unfold callLedger at h
  split at h
  · simp at h
  · rename_i hacc
    simpa using hacc

/-! ### Removal of a request -/

theorem RemoveBurnRequest_Get_self (k : ExpKeeper) (ctx : Ctx) (r : BurnRequest) (a : AccAddress)
    (hacc : k.AccAddressFromBech32 r.Account = some a) :
    (RemoveBurnRequest k ctx r).burnStore.Get (r.Status, a) = none := by
  unfold RemoveBurnRequest
  simp only [hacc, Option.getD_some]
  by_cases h : ctx.burnStore.Has (r.Status, a) = true
  · simp [h, Store.Get_Delete_self]
  · simp only [h]
    simpa [Store.Has] using h

theorem RemoveBurnRequest_Get_of_ne (k : ExpKeeper) (ctx : Ctx) (r : BurnRequest) (a : AccAddress)
    (key : RequestKey) (hacc : k.AccAddressFromBech32 r.Account = some a)
    (hne : key ≠ (r.Status, a)) :
    (RemoveBurnRequest k ctx r).burnStore.Get key = ctx.burnStore.Get key := by
  unfold RemoveBurnRequest
  simp only [hacc, Option.getD_some]
  by_cases h : ctx.burnStore.Has (r.Status, a) = true
  · simp [h, Store.Get_Delete_of_ne _ _ _ hne]
  · simp [h]

theorem RemoveBurnRequest_ledger (k : ExpKeeper) (ctx : Ctx) (r : BurnRequest) :
    (RemoveBurnRequest k ctx r).ledger = ctx.ledger := by
  simp only [RemoveBurnRequest]
  split <;> rfl

theorem RemoveBurnRequest_burnStore (k : ExpKeeper) (ctx : Ctx) (r : BurnRequest) :
    (RemoveBurnRequest k ctx r).burnStore =
      ctx.burnStore.Delete (r.Status, (k.AccAddressFromBech32 r.Account).getD []) := by
  simp only [RemoveBurnRequest]
  split
  · rfl
  · rename_i h
    have hn : ctx.burnStore.Get (r.Status, (k.AccAddressFromBech32 r.Account).getD []) = none := by
      simpa [Store.Has] using h
    exact (Store.Delete_of_Get_none _ _ hn).symm

theorem RemoveBurnRequest_mintStore (k : ExpKeeper) (ctx : Ctx) (r : BurnRequest) :
    (RemoveBurnRequest k ctx r).mintStore = ctx.mintStore := by
  simp only [RemoveBurnRequest]
  split <;> rfl

theorem RemoveMintRequest_Get_self (k : ExpKeeper) (ctx : Ctx) (r : MintRequest) (a : AccAddress)
    (hacc : k.AccAddressFromBech32 r.Account = some a) :
    (RemoveMintRequest k ctx r).mintStore.Get (r.Status, a) = none := by
  unfold RemoveMintRequest
  simp only [hacc, Option.getD_some]
  by_cases h : ctx.mintStore.Has (r.Status, a) = true
  · simp [h, Store.Get_Delete_self]
  · simp only [h]
    simpa [Store.Has] using h

theorem RemoveMintRequest_ledger (k : ExpKeeper) (ctx : Ctx) (r : MintRequest) :
    (RemoveMintRequest k ctx r).ledger = ctx.ledger := by
  simp only [RemoveMintRequest]
  split <;> rfl

theorem RemoveMintRequest_mintStore (k : ExpKeeper) (ctx : Ctx) (r : MintRequest) :
    (RemoveMintRequest k ctx r).mintStore =
      ctx.mintStore.Delete (r.Status, (k.AccAddressFromBech32 r.Account).getD []) := by
  simp only [RemoveMintRequest]
  split
  · rfl
  · rename_i h
    have hn : ctx.mintStore.Get (r.Status, (k.AccAddressFromBech32 r.Account).getD []) = none := by
      simpa [Store.Has] using h
    exact (Store.Delete_of_Get_none _ _ hn).symm

theorem RemoveMintRequest_burnStore (k : ExpKeeper) (ctx : Ctx) (r : MintRequest) :
    (RemoveMintRequest k ctx r).burnStore = ctx.burnStore := by
  simp only [RemoveMintRequest]
  split <;> rfl

/-! ### Bucket iteration -/

theorem iterateUntil_collect {α : Type} (xs acc : List α) :
    iterateUntil xs (fun (l : List α) x => (l ++ [x], false)) acc = acc ++ xs := by
  induction xs generalizing acc with
  | nil => simp [iterateUntil]
  | cons x rest ih => simp [iterateUntil, ih]

theorem GetBurnRequestsByStatus_eq (ctx : Ctx) (status : StatusRequest) :
    GetBurnRequestsByStatus ctx status = (ctx.burnStore.bucket status).map Prod.snd := by
  simp [GetBurnRequestsByStatus, IterateStatusBurnRequests, iterateUntil_collect]

theorem GetMintRequestsByStatus_eq (ctx : Ctx) (status : StatusRequest) :
    GetMintRequestsByStatus ctx status = (ctx.mintStore.bucket status).map Prod.snd := by
  simp [GetMintRequestsByStatus, IterateStatusMintRequests, iterateUntil_collect]

theorem Store.mem_bucket {α : Type} (s : Store α) (status : StatusRequest) (e : RequestKey × α) :
    e ∈ s.bucket status ↔ e ∈ s ∧ e.1.1 = status := by
  simp [Store.bucket, List.mem_insertionSort]

theorem Store.bucket_Set_filter {α : Type} (s : Store α) (status : StatusRequest)
    (a : AccAddress) (v : α) :
    ((s.Set (status, a) v).bucket status).filter (fun e => decide (e.1.2 = a)) =
      [((status, a), v)] := by
  have hperm : (((s.Set (status, a) v).bucket status).filter (fun e => decide (e.1.2 = a))).Perm
      (((s.Set (status, a) v).filter (fun e => decide (e.1.1 = status))).filter
        (fun e => decide (e.1.2 = a))) :=
    (List.perm_insertionSort _ _).filter _
  have hcomp : ((s.Set (status, a) v).filter (fun e => decide (e.1.1 = status))).filter
        (fun e => decide (e.1.2 = a)) = [((status, a), v)] := by
    simp only [Store.Set, Store.Delete, List.filter_filter]
    rw [List.filter_cons_of_pos (by simp)]
    congr 1
    rw [List.filter_eq_nil_iff]
    rintro ⟨⟨st, b⟩, w⟩ hm
    have hkey := (List.mem_filter.mp hm).2
    simp only [decide_eq_true_eq, Bool.and_eq_true, not_and, ne_eq, Prod.mk.injEq] at hkey ⊢
    intro h1 h2
    exact hkey h2 h1
  rw [hcomp] at hperm
  exact List.perm_singleton.mp hperm

theorem RefiledComplete_of_write (s : Store BurnRequest) (req rec : BurnRequest) (a : AccAddress)
    (h1 : rec.Status = StatusCompleteRequest) (h2 : rec.Account = req.Account)
    (h3 : rec.RequestTime = req.RequestTime)
    (h4 : rec.BurnTokenLeft = none ∨ rec.BurnTokenLeft = req.BurnTokenLeft) :
    RefiledComplete s ((s.Delete (req.Status, a)).Set (StatusCompleteRequest, a) rec) req a := by
  refine ⟨rec, h1, h2, h3, h4, Store.Get_Set_self _ _ _, ?_, ?_⟩
  · intro hne
    rw [Store.Get_Set_of_ne _ _ _ _ (by simpa using hne), Store.Get_Delete_self]
  · intro key hk1 hk2
    rw [Store.Get_Set_of_ne _ _ _ _ hk2, Store.Get_Delete_of_ne _ _ _ hk1]

/-! ### One burn execution -/

theorem ExecuteBurnExp_run_of_some (k : ExpKeeper) (ctx : Ctx) (req : BurnRequest)
    (a : AccAddress) (c : Coin)
    (hacc : k.AccAddressFromBech32 req.Account = some a)
    (hleft : req.BurnTokenLeft = some c) :
    ExecuteBurnExp.run k ctx req = ExecuteBurnExp.settle k ctx req a c := by
  simp [ExecuteBurnExp.run, hacc, hleft, eqNewInt]

theorem ExecuteBurnExp_of_some (k : ExpKeeper) (ctx : Ctx) (req : BurnRequest)
    (a : AccAddress) (c : Coin)
    (hacc : k.AccAddressFromBech32 req.Account = some a)
    (hleft : req.BurnTokenLeft = some c) :
    ExecuteBurnExp k ctx req = (ExecuteBurnExp.settle k ctx req a c).1 := by
  simp [ExecuteBurnExp, ExecuteBurnExp_run_of_some k ctx req a c hacc hleft]

/-- A nil `BurnTokenLeft` is dereferenced at line 284: the call panics before any
store or ledger access. -/
theorem ExecuteBurnExp_of_nil (k : ExpKeeper) (ctx : Ctx) (req : BurnRequest) (a : AccAddress)
    (hacc : k.AccAddressFromBech32 req.Account = some a) (hleft : req.BurnTokenLeft = none) :
    ExecuteBurnExp.run k ctx req = (⟨.panicked, ctx, none⟩, req) := by
  simp [ExecuteBurnExp.run, hacc, hleft]

theorem ExecuteBurnExp_of_invalid (k : ExpKeeper) (ctx : Ctx) (req : BurnRequest)
    (hacc : k.AccAddressFromBech32 req.Account = none) :
    ExecuteBurnExp.run k ctx req = (⟨.err .invalidAddress, ctx, req.BurnTokenLeft⟩, req) := by
  simp [ExecuteBurnExp.run, hacc]

/-- Full-payout branch of `ExecuteBurnExp.settle` (lines 310-326). -/
theorem settle_of_lt (k : ExpKeeper) (ctx : Ctx) (req : BurnRequest) (a : AccAddress) (r : Int)
    (hacc : k.AccAddressFromBech32 req.Account = some a)
    (hr : 0 < r) (h0 : 0 ≤ owed k r) (hlt : owed k r < pooled k ctx)
    (hsend : k.ledgerAccepts ctx.ledger
      (.SendCoinsFromModuleToAccount a (coinsOf k.GetIbcDenom (owed k r))) = true)
    (hburn : k.ledgerAccepts
      (ctx.ledger ++ [.SendCoinsFromModuleToAccount a (coinsOf k.GetIbcDenom (owed k r))])
      (.BurnExpFromAccount [⟨k.GetDenom, r⟩] a) = true) :
    ExecuteBurnExp.settle k ctx req a ⟨k.GetDenom, r⟩ =
      (⟨.ok,
       { RemoveBurnRequest k { ctx with ledger := ctx.ledger ++
            [.SendCoinsFromModuleToAccount a (coinsOf k.GetIbcDenom (owed k r)),
             .BurnExpFromAccount [⟨k.GetDenom, r⟩] a] }
            { req with BurnTokenLeft := none } with
         burnStore := (RemoveBurnRequest k { ctx with ledger := ctx.ledger ++
            [.SendCoinsFromModuleToAccount a (coinsOf k.GetIbcDenom (owed k r)),
             .BurnExpFromAccount [⟨k.GetDenom, r⟩] a] }
            { req with BurnTokenLeft := none }).burnStore.Set (StatusCompleteRequest, a)
              { req with BurnTokenLeft := none, Status := StatusCompleteRequest } },
       some ⟨k.GetDenom, r⟩⟩,
       { req with BurnTokenLeft := none, Status := StatusCompleteRequest }) := by
  have hb2 : ¬ pooled k ctx ≤ owed k r := by omega
  have hn : ¬ owed k r < 0 := by omega
  unfold pooled at hb2
  unfold owed at hn hb2
  have hc1 := NewCoins_of_nonneg k.GetIbcDenom _ h0
  have hc2 := NewCoins_of_pos k.GetDenom r hr
  unfold owed at hc1 hsend hburn
  simp [ExecuteBurnExp.settle, calculateStableTokenReturn, NewCoin, Coin.IsGTE, callLedger,
    SetBurnRequest, hc1, hc2, hn, hb2, hsend, hburn, hacc, owed, eqNewInt]

/-- Shortfall branch of `ExecuteBurnExp.settle` (lines 299-308): the pool is paid
out whole, the in-memory coin is overwritten, the store is not written. -/
theorem settle_of_ge (k : ExpKeeper) (ctx : Ctx) (req : BurnRequest) (a : AccAddress) (r : Int)
    (hb : 0 < pooled k ctx) (hge : pooled k ctx ≤ owed k r)
    (hsend : k.ledgerAccepts ctx.ledger
      (.SendCoinsFromModuleToAccount a [⟨k.GetIbcDenom, pooled k ctx⟩]) = true) :
    (ExecuteBurnExp.settle k ctx req a ⟨k.GetDenom, r⟩).1 =
      if k.ledgerAccepts
          (ctx.ledger ++ [.SendCoinsFromModuleToAccount a [⟨k.GetIbcDenom, pooled k ctx⟩]])
          (.BurnExpFromAccount [⟨k.GetIbcDenom, pooled k ctx⟩] a) = true then
        ⟨.ok,
         { ctx with ledger := ctx.ledger ++
            [.SendCoinsFromModuleToAccount a [⟨k.GetIbcDenom, pooled k ctx⟩],
             .BurnExpFromAccount [⟨k.GetIbcDenom, pooled k ctx⟩] a] },
         some ⟨k.GetDenom, owed k r - pooled k ctx⟩⟩
      else
        ⟨.err (.ledgerRejected (.BurnExpFromAccount [⟨k.GetIbcDenom, pooled k ctx⟩] a)),
         { ctx with ledger := ctx.ledger ++
            [.SendCoinsFromModuleToAccount a [⟨k.GetIbcDenom, pooled k ctx⟩]] },
         some ⟨k.GetDenom, owed k r - pooled k ctx⟩⟩ := by
  have hn : ¬ owed k r < 0 := by omega
  have hc := NewCoins_of_pos k.GetIbcDenom _ hb
  unfold pooled at hge hc hsend
  unfold owed at hn hge
  by_cases hburn : k.ledgerAccepts
          (ctx.ledger ++ [.SendCoinsFromModuleToAccount a [⟨k.GetIbcDenom, k.GetBalance ctx.ledger⟩]])
          (.BurnExpFromAccount [⟨k.GetIbcDenom, k.GetBalance ctx.ledger⟩] a) = true
  · simp [ExecuteBurnExp.settle, calculateStableTokenReturn, NewCoin, Coin.IsGTE, callLedger,
      hc, hn, hge, hsend, hburn, owed, pooled, eqNewInt]
  · simp [ExecuteBurnExp.settle, calculateStableTokenReturn, NewCoin, Coin.IsGTE, callLedger,
      hc, hn, hge, hsend, hburn, owed, pooled, eqNewInt]

/-- What `ExecuteBurnExp.settle` can do: the mint collection is never touched; either
the burn collection is untouched and the local request keeps its status, or the
request is re-filed under Complete with its coin cleared and that record is the
local request; the coin keeps its denom and either keeps its amount or takes a
non-negative one. -/
theorem settle_effect (k : ExpKeeper) (ctx : Ctx) (req : BurnRequest) (a : AccAddress) (c : Coin)
    (hacc : k.AccAddressFromBech32 req.Account = some a) :
    (ExecuteBurnExp.settle k ctx req a c).1.ctx.mintStore = ctx.mintStore ∧
    (((ExecuteBurnExp.settle k ctx req a c).1.ctx.burnStore = ctx.burnStore ∧
        (ExecuteBurnExp.settle k ctx req a c).2.Status = req.Status) ∨
      ((ExecuteBurnExp.settle k ctx req a c).1.ctx.burnStore =
        (ctx.burnStore.Delete (req.Status, a)).Set (StatusCompleteRequest, a)
          { req with BurnTokenLeft := none, Status := StatusCompleteRequest } ∧
        (ExecuteBurnExp.settle k ctx req a c).2 =
          { req with BurnTokenLeft := none, Status := StatusCompleteRequest } ∧
        (ExecuteBurnExp.settle k ctx req a c).1.ret = .ok)) ∧
    ((ExecuteBurnExp.settle k ctx req a c).1.BurnTokenLeft = some c ∨
      ∃ x : Int, 0 ≤ x ∧
        (ExecuteBurnExp.settle k ctx req a c).1.BurnTokenLeft = some { c with Amount := x }) := by
  simp only [ExecuteBurnExp.settle, eqNewInt]
  split
  · simp
  · split
    · simp at *
    · split
      · simp
      · rename_i coinWilReceive _ _ _ hgte
        split
        · simp
        · split
          · simp
          · rename_i ctx1 h1
            obtain ⟨rfl, -⟩ := callLedger_some _ _ _ _ h1
            have hx : 0 ≤ coinWilReceive.Amount - k.GetBalance ctx.ledger := by
              simp only [Coin.IsGTE] at hgte
              split at hgte
              · simp at hgte
              · simp at hgte
                omega
            split
            · exact ⟨rfl, Or.inl ⟨rfl, rfl⟩, Or.inr ⟨_, hx, rfl⟩⟩
            · rename_i ctx2 h2
              obtain ⟨rfl, -⟩ := callLedger_some _ _ _ _ h2
              exact ⟨rfl, Or.inl ⟨rfl, rfl⟩, Or.inr ⟨_, hx, rfl⟩⟩
      · split
        · simp
        · split
          · simp
          · rename_i ctx1 h1
            obtain ⟨rfl, -⟩ := callLedger_some _ _ _ _ h1
            split
            · simp
            · split
              · simp
              · rename_i ctx2 h2
                obtain ⟨rfl, -⟩ := callLedger_some _ _ _ _ h2
                simp only [SetBurnRequest, hacc]
                refine ⟨?_, Or.inr ?_, ?_⟩
                · simp [RemoveBurnRequest_mintStore]
                · simp [RemoveBurnRequest_burnStore, hacc]
                · simp

/-- What one `ExecuteBurnExp` can do, for a decodable account: the mint collection is
untouched; either the burn collection is untouched and the local request keeps its
status, or the burn collection is the old one with the request re-filed under
Complete and the local request is the record filed; the coin the caller sees is as
before or has a non-negative amount. -/
theorem ExecuteBurnExp_effect (k : ExpKeeper) (ctx : Ctx) (req : BurnRequest) (a : AccAddress)
    (hacc : k.AccAddressFromBech32 req.Account = some a) :
    (ExecuteBurnExp k ctx req).ctx.mintStore = ctx.mintStore ∧
    (((ExecuteBurnExp k ctx req).ctx.burnStore = ctx.burnStore ∧
        (ExecuteBurnExp.run k ctx req).2.Status = req.Status) ∨
      ((ExecuteBurnExp k ctx req).ctx.burnStore =
        (ctx.burnStore.Delete (req.Status, a)).Set (StatusCompleteRequest, a)
          { req with BurnTokenLeft := none, Status := StatusCompleteRequest } ∧
        (ExecuteBurnExp.run k ctx req).2 =
          { req with BurnTokenLeft := none, Status := StatusCompleteRequest } ∧
        (ExecuteBurnExp k ctx req).ret = .ok)) ∧
    ((ExecuteBurnExp k ctx req).BurnTokenLeft = req.BurnTokenLeft ∨
      ∃ (c : Coin) (x : Int), req.BurnTokenLeft = some c ∧ 0 ≤ x ∧
        (ExecuteBurnExp k ctx req).BurnTokenLeft = some { c with Amount := x }) := by
  unfold ExecuteBurnExp
  cases hleft : req.BurnTokenLeft with
  | none =>
    rw [ExecuteBurnExp_of_nil k ctx req a hacc hleft]
    exact ⟨rfl, Or.inl ⟨rfl, rfl⟩, Or.inl rfl⟩
  | some c =>
    rw [ExecuteBurnExp_run_of_some k ctx req a c hacc hleft]
    obtain ⟨e1, e2, e3⟩ := settle_effect k ctx req a c hacc
    refine ⟨e1, e2, ?_⟩
    rcases e3 with e3 | ⟨x, hx, e3⟩
    · exact Or.inl e3
    · exact Or.inr ⟨c, x, rfl, hx, e3⟩

theorem ExecuteBurnExp_refiled (k : ExpKeeper) (ctx : Ctx) (req : BurnRequest) (a : AccAddress)
    (hacc : k.AccAddressFromBech32 req.Account = some a) :
    (ExecuteBurnExp k ctx req).ctx.burnStore = ctx.burnStore ∨
      RefiledComplete ctx.burnStore (ExecuteBurnExp k ctx req).ctx.burnStore req a := by
  obtain ⟨-, e2, -⟩ := ExecuteBurnExp_effect k ctx req a hacc
  rcases e2 with ⟨e2, -⟩ | ⟨e2, -, -⟩
  · exact Or.inl e2
  · rw [e2]
    exact Or.inr (RefiledComplete_of_write _ _ _ _ rfl rfl rfl (Or.inl rfl))

/-! ### One mint execution -/

/-- Accepting ledger (lines 335-357): the two calls are made, the record is removed
from the bucket of its status and filed under Expired, the status line 352 gives
it. -/
theorem ExecuteMintExp_run_of_accepting (k : ExpKeeper) (ctx : Ctx) (req : MintRequest)
    (a : AccAddress)
    (hacc : k.AccAddressFromBech32 req.Account = some a)
    (h0 : 0 ≤ req.DaoTokenMinted.TruncateInt)
    (hwl : k.ledgerAccepts ctx.ledger
      (.addAddressToWhiteList a ⟨k.GetDenom, req.DaoTokenMinted.TruncateInt⟩) = true)
    (hmint : k.ledgerAccepts
      (ctx.ledger ++ [.addAddressToWhiteList a ⟨k.GetDenom, req.DaoTokenMinted.TruncateInt⟩])
      (.MintExpForAccount (coinsOf k.GetDenom req.DaoTokenMinted.TruncateInt) a) = true) :
    ExecuteMintExp.run k ctx req =
      ((.ok,
       { RemoveMintRequest k { ctx with ledger := ctx.ledger ++
            [.addAddressToWhiteList a ⟨k.GetDenom, req.DaoTokenMinted.TruncateInt⟩,
             .MintExpForAccount (coinsOf k.GetDenom req.DaoTokenMinted.TruncateInt) a] } req with
         mintStore := (RemoveMintRequest k { ctx with ledger := ctx.ledger ++
            [.addAddressToWhiteList a ⟨k.GetDenom, req.DaoTokenMinted.TruncateInt⟩,
             .MintExpForAccount (coinsOf k.GetDenom req.DaoTokenMinted.TruncateInt) a] }
            req).mintStore.Set (StatusExpiredRequest, a)
              { req with Status := StatusExpiredRequest } }),
       { req with Status := StatusExpiredRequest }) := by
  have hn : ¬ req.DaoTokenMinted.TruncateInt < 0 := by omega
  have hc := NewCoins_of_nonneg k.GetDenom _ h0
  simp [ExecuteMintExp.run, eqNewDec, hacc, NewCoin, hn, callLedger, hwl, hmint, hc,
    SetMintRequest]

/-- What one `ExecuteMintExp` can do: the burn collection is untouched; either the
mint collection is untouched and the local request keeps its status, or (account
not decodable) the key of the request's status is deleted and nothing is filed, or
the record is re-filed under Expired and that record is the local request. -/
theorem ExecuteMintExp_effect (k : ExpKeeper) (ctx : Ctx) (req : MintRequest) :
    (ExecuteMintExp k ctx req).2.burnStore = ctx.burnStore ∧
    (((ExecuteMintExp k ctx req).2.mintStore = ctx.mintStore ∧
        (ExecuteMintExp.run k ctx req).2.Status = req.Status) ∨
      (k.AccAddressFromBech32 req.Account = none ∧
        (ExecuteMintExp k ctx req).2.mintStore = ctx.mintStore.Delete (req.Status, [])) ∨
      ∃ a, k.AccAddressFromBech32 req.Account = some a ∧
        (ExecuteMintExp k ctx req).2.mintStore =
          (ctx.mintStore.Delete (req.Status, a)).Set (StatusExpiredRequest, a)
            { req with Status := StatusExpiredRequest } ∧
        (ExecuteMintExp.run k ctx req).2 = { req with Status := StatusExpiredRequest } ∧
        (ExecuteMintExp k ctx req).1 = .ok) := by
  simp only [ExecuteMintExp, ExecuteMintExp.run, eqNewDec]
  split
  · simp at *
  · split
    · exact ⟨rfl, Or.inl ⟨rfl, rfl⟩⟩
    · split
      · exact ⟨rfl, Or.inl ⟨rfl, rfl⟩⟩
      · rename_i ctx1 h1
        obtain ⟨rfl, -⟩ := callLedger_some _ _ _ _ h1
        split
        · exact ⟨rfl, Or.inl ⟨rfl, rfl⟩⟩
        · split
          · exact ⟨rfl, Or.inl ⟨rfl, rfl⟩⟩
          · rename_i ctx2 h2
            obtain ⟨rfl, -⟩ := callLedger_some _ _ _ _ h2
            cases hacc : k.AccAddressFromBech32 req.Account with
            | none =>
              simp only [SetMintRequest, hacc]
              refine ⟨by simp [RemoveMintRequest_burnStore], Or.inr (Or.inl ⟨trivial, ?_⟩)⟩
              simp [RemoveMintRequest_mintStore, hacc]
            | some a =>
              simp only [SetMintRequest, hacc]
              refine ⟨by simp [RemoveMintRequest_burnStore], Or.inr (Or.inr ⟨a, rfl, ?_, ?_, ?_⟩)⟩
              · simp [RemoveMintRequest_mintStore, hacc]
              · simp
              · simp

theorem ExecuteBurnExp_eq_of_invalid (k : ExpKeeper) (ctx : Ctx) (req : BurnRequest)
    (hacc : k.AccAddressFromBech32 req.Account = none) :
    ExecuteBurnExp k ctx req = ⟨.err .invalidAddress, ctx, req.BurnTokenLeft⟩ := by
  simp [ExecuteBurnExp, ExecuteBurnExp_of_invalid k ctx req hacc]

theorem ExecuteBurnExp_coin_nonneg (k : ExpKeeper) (ctx : Ctx) (req : BurnRequest)
    (hreq : ∀ c, req.BurnTokenLeft = some c → 0 ≤ c.Amount) :
    ∀ c, (ExecuteBurnExp k ctx req).BurnTokenLeft = some c → 0 ≤ c.Amount := by
  cases hacc : k.AccAddressFromBech32 req.Account with
  | none =>
    rw [ExecuteBurnExp_eq_of_invalid k ctx req hacc]
    exact hreq
  | some a =>
    obtain ⟨-, -, hcoin⟩ := ExecuteBurnExp_effect k ctx req a hacc
    intro c hc
    rcases hcoin with hsame | ⟨c0, x, -, hx, hnew⟩
    · exact hreq c (hsame ▸ hc)
    · rw [hnew] at hc
      have : c = { c0 with Amount := x } := (Option.some.inj hc).symm
      rw [this]
      exact hx

theorem StoredAmountsNonneg_step (k : ExpKeeper) (ctx : Ctx) (req : BurnRequest)
    (hstore : StoredAmountsNonneg ctx.burnStore)
    (hreq : ∀ c, req.BurnTokenLeft = some c → 0 ≤ c.Amount) :
    StoredAmountsNonneg (ExecuteBurnExp k ctx req).ctx.burnStore := by
  cases hacc : k.AccAddressFromBech32 req.Account with
  | none =>
    rw [ExecuteBurnExp_eq_of_invalid k ctx req hacc]
    exact hstore
  | some a =>
    have hst := ExecuteBurnExp_refiled k ctx req a hacc
    rcases hst with hsame | ⟨rec, -, -, -, h4, h5, h6, h7⟩
    · rw [hsame]
      exact hstore
    · intro key r c hget hleft
      by_cases hk2 : key = (StatusCompleteRequest, a)
      · subst hk2
        rw [h5] at hget
        have hr : rec = r := Option.some.inj hget
        subst hr
        rcases h4 with h4 | h4
        · rw [h4] at hleft
          exact absurd hleft (by simp)
        · exact hreq c (h4 ▸ hleft)
      · by_cases hk1 : key = (req.Status, a)
        · subst hk1
          have hne : req.Status ≠ StatusCompleteRequest := by
            intro h
            exact hk2 (by rw [h])
          rw [h6 hne] at hget
          exact absurd hget (by simp)
        · rw [h7 key hk1 hk2] at hget
          exact hstore key r c hget hleft

/-! ### Claims C1 to C10 -/

/-- C1. Full settlement: a Pending burn request with `r > 0` value tokens left and
`owed = truncate(p * r) < b`, on a ledger that accepts the two calls, returns nil;
the ledger has transferred exactly `owed` stable units to the account and burned
exactly `r` value tokens from it, the Pending bucket holds no record of the
account, and the Complete bucket holds the record with status Complete and
`BurnTokenLeft` nil. -/
theorem ExecuteBurnExp_full_settlement (k : ExpKeeper) (ctx : Ctx) (req : BurnRequest)
    (a : AccAddress) (r : Int)
    (hacc : k.AccAddressFromBech32 req.Account = some a)
    (hstatus : req.Status = StatusOnGoingRequest)
    (hleft : req.BurnTokenLeft = some ⟨k.GetDenom, r⟩)
    (hr : 0 < r) (h0 : 0 ≤ owed k r) (hlt : owed k r < pooled k ctx)
    (hsend : k.ledgerAccepts ctx.ledger
      (.SendCoinsFromModuleToAccount a (coinsOf k.GetIbcDenom (owed k r))) = true)
    (hburn : k.ledgerAccepts
      (ctx.ledger ++ [.SendCoinsFromModuleToAccount a (coinsOf k.GetIbcDenom (owed k r))])
      (.BurnExpFromAccount [⟨k.GetDenom, r⟩] a) = true) :
    (ExecuteBurnExp k ctx req).ret = .ok ∧
    (ExecuteBurnExp k ctx req).ctx.ledger = ctx.ledger ++
      [.SendCoinsFromModuleToAccount a (coinsOf k.GetIbcDenom (owed k r)),
       .BurnExpFromAccount [⟨k.GetDenom, r⟩] a] ∧
    (ExecuteBurnExp k ctx req).ctx.burnStore.Get (StatusOnGoingRequest, a) = none ∧
    (ExecuteBurnExp k ctx req).ctx.burnStore.Get (StatusCompleteRequest, a) =
      some { req with BurnTokenLeft := none, Status := StatusCompleteRequest } := by
  rw [ExecuteBurnExp_of_some k ctx req a _ hacc hleft,
    settle_of_lt k ctx req a r hacc hr h0 hlt hsend hburn]
  have hacc2 : k.AccAddressFromBech32
      ({ req with BurnTokenLeft := none } : BurnRequest).Account = some a := hacc
  refine ⟨rfl, ?_, ?_, ?_⟩
  · simp [RemoveBurnRequest_ledger]
  · have h1 := RemoveBurnRequest_Get_self k { ctx with ledger := ctx.ledger ++
            [.SendCoinsFromModuleToAccount a (coinsOf k.GetIbcDenom (owed k r)),
             .BurnExpFromAccount [⟨k.GetDenom, r⟩] a] }
            { req with BurnTokenLeft := none } a hacc2
    simp only [hstatus] at h1
    rw [Store.Get_Set_of_ne _ _ _ _ (by simp)]
    simpa [hstatus] using h1
  · simp [Store.Get_Set_self]

/-- Scenario of C1: `r = 100`, price 2, pool 300 pays 200 and files the record as Complete. -/
theorem ExecuteBurnExp_full_settlement_witness :
    (ExecuteBurnExp (scenarioKeeper 300 true true) (burnCtx (aliceBurn (some ⟨"uexp", 100⟩)))
      (aliceBurn (some ⟨"uexp", 100⟩))).ret = .ok ∧
    (ExecuteBurnExp (scenarioKeeper 300 true true) (burnCtx (aliceBurn (some ⟨"uexp", 100⟩)))
      (aliceBurn (some ⟨"uexp", 100⟩))).ctx.ledger = [] ++
      [.SendCoinsFromModuleToAccount alice [⟨"token", 200⟩],
       .BurnExpFromAccount [⟨"uexp", 100⟩] alice] ∧
    (ExecuteBurnExp (scenarioKeeper 300 true true) (burnCtx (aliceBurn (some ⟨"uexp", 100⟩)))
      (aliceBurn (some ⟨"uexp", 100⟩))).ctx.burnStore.Get (StatusOnGoingRequest, alice) = none ∧
    (ExecuteBurnExp (scenarioKeeper 300 true true) (burnCtx (aliceBurn (some ⟨"uexp", 100⟩)))
      (aliceBurn (some ⟨"uexp", 100⟩))).ctx.burnStore.Get (StatusCompleteRequest, alice) =
      some ⟨"alice", none, 0, StatusCompleteRequest⟩ :=
  ExecuteBurnExp_full_settlement (scenarioKeeper 300 true true)
    (burnCtx (aliceBurn (some ⟨"uexp", 100⟩))) (aliceBurn (some ⟨"uexp", 100⟩)) alice 100
    (by decide) (by decide) (by decide) (by decide) (by decide) (by decide)
    (by decide) (by decide)

/-- C2 (code as written). Scenario `r = 100`, price 2, pool 80: the call returns
nil, the record stored in the Pending bucket still has 100 value tokens left (not
60), and the coin shared with the caller holds `owed - pooled = 120`. -/
theorem ExecuteBurnExp_shortfall_bookkeeping_scenario :
    (ExecuteBurnExp (scenarioKeeper 80 true true) (burnCtx (aliceBurn (some ⟨"uexp", 100⟩)))
      (aliceBurn (some ⟨"uexp", 100⟩))).ret = .ok ∧
    (ExecuteBurnExp (scenarioKeeper 80 true true) (burnCtx (aliceBurn (some ⟨"uexp", 100⟩)))
      (aliceBurn (some ⟨"uexp", 100⟩))).ctx.burnStore.Get (StatusOnGoingRequest, alice) =
        some (aliceBurn (some ⟨"uexp", 100⟩)) ∧
    (ExecuteBurnExp (scenarioKeeper 80 true true) (burnCtx (aliceBurn (some ⟨"uexp", 100⟩)))
      (aliceBurn (some ⟨"uexp", 100⟩))).BurnTokenLeft = some ⟨"uexp", 120⟩ := by
  decide

/-- C3. Shortfall payout: for a Pending burn request with `0 < b < owed` and a
ledger that accepts the transfer, the only transfer made is the whole pooled balance
`b` of the stable asset to the account (followed at most by the burn call), and
the burn collection of the store is exactly what it was, so the record is still in
the Pending bucket and no other bucket changed. -/
theorem ExecuteBurnExp_shortfall_payout (k : ExpKeeper) (ctx : Ctx) (req : BurnRequest)
    (a : AccAddress) (r : Int)
    (hacc : k.AccAddressFromBech32 req.Account = some a)
    (hstored : ctx.burnStore.Get (StatusOnGoingRequest, a) = some req)
    (hleft : req.BurnTokenLeft = some ⟨k.GetDenom, r⟩)
    (hb : 0 < pooled k ctx) (hlt : pooled k ctx < owed k r)
    (hsend : k.ledgerAccepts ctx.ledger
      (.SendCoinsFromModuleToAccount a [⟨k.GetIbcDenom, pooled k ctx⟩]) = true) :
    (∃ rest, (ExecuteBurnExp k ctx req).ctx.ledger = ctx.ledger ++
        .SendCoinsFromModuleToAccount a [⟨k.GetIbcDenom, pooled k ctx⟩] :: rest ∧
      (rest = [] ∨ rest = [.BurnExpFromAccount [⟨k.GetIbcDenom, pooled k ctx⟩] a])) ∧
    (ExecuteBurnExp k ctx req).ctx.burnStore = ctx.burnStore ∧
    (ExecuteBurnExp k ctx req).ctx.burnStore.Get (StatusOnGoingRequest, a) = some req := by
  rw [ExecuteBurnExp_of_some k ctx req a _ hacc hleft,
    settle_of_ge k ctx req a r hb (le_of_lt hlt) hsend]
  split
  · exact ⟨⟨[.BurnExpFromAccount [⟨k.GetIbcDenom, pooled k ctx⟩] a], rfl, Or.inr rfl⟩, rfl, hstored⟩
  · exact ⟨⟨[], rfl, Or.inl rfl⟩, rfl, hstored⟩

/-- Scenario of C3: `r = 100`, price 2, pool 80 pays out exactly 80. -/
theorem ExecuteBurnExp_shortfall_payout_witness :
    (∃ rest, (ExecuteBurnExp (scenarioKeeper 80 true true)
        (burnCtx (aliceBurn (some ⟨"uexp", 100⟩))) (aliceBurn (some ⟨"uexp", 100⟩))).ctx.ledger =
        [] ++ .SendCoinsFromModuleToAccount alice [⟨"token", 80⟩] :: rest ∧
      (rest = [] ∨ rest = [.BurnExpFromAccount [⟨"token", 80⟩] alice])) ∧
    (ExecuteBurnExp (scenarioKeeper 80 true true)
        (burnCtx (aliceBurn (some ⟨"uexp", 100⟩))) (aliceBurn (some ⟨"uexp", 100⟩))).ctx.burnStore =
      (burnCtx (aliceBurn (some ⟨"uexp", 100⟩))).burnStore ∧
    (ExecuteBurnExp (scenarioKeeper 80 true true)
        (burnCtx (aliceBurn (some ⟨"uexp", 100⟩))) (aliceBurn (some ⟨"uexp", 100⟩))).ctx.burnStore.Get
          (StatusOnGoingRequest, alice) = some (aliceBurn (some ⟨"uexp", 100⟩)) :=
  ExecuteBurnExp_shortfall_payout (scenarioKeeper 80 true true)
    (burnCtx (aliceBurn (some ⟨"uexp", 100⟩))) (aliceBurn (some ⟨"uexp", 100⟩)) alice 100
    (by decide) (by decide) (by decide) (by decide) (by decide) (by decide)

/-- C4 (code as written). Scenario `r = 100`, price 2, pool 200 = owed: the pool covers
the owed amount, the call returns nil and pays the 200 owed in full, but it takes
the shortfall path: it burns the 200 of the stable asset `token` from the account,
files nothing under Complete and leaves the request Pending with 100 stored. -/
theorem ExecuteBurnExp_boundary_scenario :
    owed (scenarioKeeper 200 true true) 100 ≤
      pooled (scenarioKeeper 200 true true) (burnCtx (aliceBurn (some ⟨"uexp", 100⟩))) ∧
    (ExecuteBurnExp (scenarioKeeper 200 true true) (burnCtx (aliceBurn (some ⟨"uexp", 100⟩)))
      (aliceBurn (some ⟨"uexp", 100⟩))).ret = .ok ∧
    (ExecuteBurnExp (scenarioKeeper 200 true true) (burnCtx (aliceBurn (some ⟨"uexp", 100⟩)))
      (aliceBurn (some ⟨"uexp", 100⟩))).ctx.ledger =
        [.SendCoinsFromModuleToAccount alice [⟨"token", 200⟩],
         .BurnExpFromAccount [⟨"token", 200⟩] alice] ∧
    (ExecuteBurnExp (scenarioKeeper 200 true true) (burnCtx (aliceBurn (some ⟨"uexp", 100⟩)))
      (aliceBurn (some ⟨"uexp", 100⟩))).ctx.burnStore.Get (StatusCompleteRequest, alice) = none ∧
    (ExecuteBurnExp (scenarioKeeper 200 true true) (burnCtx (aliceBurn (some ⟨"uexp", 100⟩)))
      (aliceBurn (some ⟨"uexp", 100⟩))).ctx.burnStore.Get (StatusOnGoingRequest, alice) =
        some (aliceBurn (some ⟨"uexp", 100⟩)) := by
  decide

/-- C5 (code as written). Scenario `r = 100`, price 2, pool 300 and a ledger that
rejects the transfer: the transfer of the full-payout path is rejected, yet the
call returns nil; nothing was committed and the record is unchanged. -/
theorem ExecuteBurnExp_rejected_transfer_scenario :
    (scenarioKeeper 300 false true).ledgerAccepts []
      (.SendCoinsFromModuleToAccount alice [⟨"token", 200⟩]) = false ∧
    ExecuteBurnExp (scenarioKeeper 300 false true) (burnCtx (aliceBurn (some ⟨"uexp", 100⟩)))
      (aliceBurn (some ⟨"uexp", 100⟩)) =
        ⟨.ok, burnCtx (aliceBurn (some ⟨"uexp", 100⟩)), some ⟨"uexp", 100⟩⟩ := by
  decide

/-- C6 (code as written). Scenario: 100 left in the denom `other`, value token `uexp`,
pool 300.  `calculateStableTokenReturn` reports the mismatch, but the call returns
nil, burns the 100 `other` from the account and files the record as Complete. -/
theorem ExecuteBurnExp_denom_mismatch_scenario :
    (calculateStableTokenReturn (scenarioKeeper 300 true true) ⟨"other", 100⟩).2 =
      some .ErrInputOutputMismatch ∧
    ExecuteBurnExp (scenarioKeeper 300 true true) (burnCtx (aliceBurn (some ⟨"other", 100⟩)))
      (aliceBurn (some ⟨"other", 100⟩)) =
        ⟨.ok,
         ⟨[((StatusCompleteRequest, alice), ⟨"alice", none, 0, StatusCompleteRequest⟩)], [],
          [.SendCoinsFromModuleToAccount alice [], .BurnExpFromAccount [⟨"other", 100⟩] alice],
          10⟩,
         some ⟨"other", 100⟩⟩ := by
  decide

/-- C7 (code as written). A stored Pending request whose `BurnTokenLeft` is nil makes
the call panic with the store untouched; with zero left and pool 300 the call does
not stop at line 284 and makes a transfer call and a burn call. -/
theorem ExecuteBurnExp_resolved_request_scenario :
    ExecuteBurnExp (scenarioKeeper 300 true true) (burnCtx (aliceBurn none)) (aliceBurn none) =
      ⟨.panicked, burnCtx (aliceBurn none), none⟩ ∧
    (ExecuteBurnExp (scenarioKeeper 300 true true) (burnCtx (aliceBurn (some ⟨"uexp", 0⟩)))
      (aliceBurn (some ⟨"uexp", 0⟩))).ctx.ledger =
        [.SendCoinsFromModuleToAccount alice [], .BurnExpFromAccount [] alice] := by
  decide

/-- C8 (code as written). A stored Pending mint request with nothing minted (5 left): the
guard of line 330 is not taken, the call registers the account on the whitelist,
calls the mint with the empty coin set and files the record under Expired; nothing
is filed under NoFunds. -/
theorem ExecuteMintExp_nothing_minted_scenario :
    (ExecuteMintExp (scenarioKeeper 300 true true) (mintCtx (aliceMint 5 0 StatusOnGoingRequest))
      (aliceMint 5 0 StatusOnGoingRequest)).1 = .ok ∧
    (ExecuteMintExp (scenarioKeeper 300 true true) (mintCtx (aliceMint 5 0 StatusOnGoingRequest))
      (aliceMint 5 0 StatusOnGoingRequest)).2.ledger =
        [.addAddressToWhiteList alice ⟨"uexp", 0⟩, .MintExpForAccount [] alice] ∧
    (ExecuteMintExp (scenarioKeeper 300 true true) (mintCtx (aliceMint 5 0 StatusOnGoingRequest))
      (aliceMint 5 0 StatusOnGoingRequest)).2.mintStore.Get (StatusNoFundRequest, alice) =
        none ∧
    (ExecuteMintExp (scenarioKeeper 300 true true) (mintCtx (aliceMint 5 0 StatusOnGoingRequest))
      (aliceMint 5 0 StatusOnGoingRequest)).2.mintStore.Get (StatusExpiredRequest, alice) =
        some (aliceMint 5 0 StatusExpiredRequest) := by
  decide

/-- C9 (code as written). A stored Pending mint request with 7 minted and nothing left,
on a ledger that accepts the calls: the call returns nil and mints once, 7 of the
value token, but the guard of line 349 is not taken: the record is filed under
Expired and nothing is filed under Complete. -/
theorem ExecuteMintExp_nothing_left_scenario :
    (ExecuteMintExp (scenarioKeeper 300 true true) (mintCtx (aliceMint 0 7 StatusOnGoingRequest))
      (aliceMint 0 7 StatusOnGoingRequest)).1 = .ok ∧
    (ExecuteMintExp (scenarioKeeper 300 true true) (mintCtx (aliceMint 0 7 StatusOnGoingRequest))
      (aliceMint 0 7 StatusOnGoingRequest)).2.ledger =
        [.addAddressToWhiteList alice ⟨"uexp", 7⟩, .MintExpForAccount [⟨"uexp", 7⟩] alice] ∧
    (ExecuteMintExp (scenarioKeeper 300 true true) (mintCtx (aliceMint 0 7 StatusOnGoingRequest))
      (aliceMint 0 7 StatusOnGoingRequest)).2.mintStore.Get (StatusCompleteRequest, alice) =
        none ∧
    (ExecuteMintExp (scenarioKeeper 300 true true) (mintCtx (aliceMint 0 7 StatusOnGoingRequest))
      (aliceMint 0 7 StatusOnGoingRequest)).2.mintStore.Get (StatusExpiredRequest, alice) =
        some (aliceMint 0 7 StatusExpiredRequest) := by
  decide

/-- C10. Mint with leftover: for a mint request with `DaoTokenMinted > 0` and
`DaoTokenLeft > 0`, on a ledger that accepts the calls, the call returns nil and the
record is stored with status Expired, `DaoTokenLeft` and `DaoTokenMinted` as they
were; a request that was Pending leaves no record of the account in the Pending
bucket. -/
theorem ExecuteMintExp_expired (k : ExpKeeper) (ctx : Ctx) (req : MintRequest) (a : AccAddress)
    (hacc : k.AccAddressFromBech32 req.Account = some a)
    (hminted : 0 < req.DaoTokenMinted.raw)
    (hleft : 0 < req.DaoTokenLeft.raw)
    (hwl : k.ledgerAccepts ctx.ledger
      (.addAddressToWhiteList a ⟨k.GetDenom, req.DaoTokenMinted.TruncateInt⟩) = true)
    (hmint : k.ledgerAccepts
      (ctx.ledger ++ [.addAddressToWhiteList a ⟨k.GetDenom, req.DaoTokenMinted.TruncateInt⟩])
      (.MintExpForAccount (coinsOf k.GetDenom req.DaoTokenMinted.TruncateInt) a) = true) :
    (ExecuteMintExp k ctx req).1 = .ok ∧
    (ExecuteMintExp k ctx req).2.mintStore.Get (StatusExpiredRequest, a) =
      some ⟨req.Account, req.DaoTokenLeft, req.DaoTokenMinted, StatusExpiredRequest,
        req.RequestTime⟩ ∧
    (req.Status = StatusOnGoingRequest →
      (ExecuteMintExp k ctx req).2.mintStore.Get (StatusOnGoingRequest, a) = none) := by
  have _hl := hleft
  have h0 : 0 ≤ req.DaoTokenMinted.TruncateInt := TruncateInt_nonneg _ (le_of_lt hminted)
  simp only [ExecuteMintExp, ExecuteMintExp_run_of_accepting k ctx req a hacc h0 hwl hmint]
  refine ⟨trivial, ?_, ?_⟩
  · simp [Store.Get_Set_self]
  · intro hs
    have h1 := RemoveMintRequest_Get_self k { ctx with ledger := ctx.ledger ++
            [.addAddressToWhiteList a ⟨k.GetDenom, req.DaoTokenMinted.TruncateInt⟩,
             .MintExpForAccount (coinsOf k.GetDenom req.DaoTokenMinted.TruncateInt) a] } req a hacc
    rw [hs] at h1
    rw [Store.Get_Set_of_ne _ _ _ _ (by simp)]
    exact h1

/-- Scenario of C10: 7 minted, 3 left. -/
theorem ExecuteMintExp_expired_witness :
    (ExecuteMintExp (scenarioKeeper 300 true true) (mintCtx (aliceMint 3 7 StatusOnGoingRequest))
      (aliceMint 3 7 StatusOnGoingRequest)).1 = .ok ∧
    (ExecuteMintExp (scenarioKeeper 300 true true) (mintCtx (aliceMint 3 7 StatusOnGoingRequest))
      (aliceMint 3 7 StatusOnGoingRequest)).2.mintStore.Get (StatusExpiredRequest, alice) =
      some ⟨"alice", NewDec 3, NewDec 7, StatusExpiredRequest, 0⟩ ∧
    (StatusOnGoingRequest = StatusOnGoingRequest →
      (ExecuteMintExp (scenarioKeeper 300 true true) (mintCtx (aliceMint 3 7 StatusOnGoingRequest))
        (aliceMint 3 7 StatusOnGoingRequest)).2.mintStore.Get (StatusOnGoingRequest, alice) =
          none) :=
  ExecuteMintExp_expired (scenarioKeeper 300 true true)
    (mintCtx (aliceMint 3 7 StatusOnGoingRequest)) (aliceMint 3 7 StatusOnGoingRequest) alice
    (by decide) (by decide) (by decide) (by decide) (by decide)

/-! ### Claims C11 to C20 -/

/-- C11. Mint atomicity on ledger failure: when `ExecuteMintExp` reaches its ledger
calls (the coin to mint is valid) and the whitelist registration is rejected, the
call returns the error of the registration and the context is the one it was given;
when the registration is accepted and the mint is rejected, the call returns the
error of the mint and both request collections of the store are exactly what they
were (the ledger has taken the registration only). -/
theorem ExecuteMintExp_ledger_failure (k : ExpKeeper) (ctx : Ctx) (req : MintRequest)
    (h0 : 0 ≤ req.DaoTokenMinted.TruncateInt) :
    (k.ledgerAccepts ctx.ledger
        (.addAddressToWhiteList ((k.AccAddressFromBech32 req.Account).getD [])
          ⟨k.GetDenom, req.DaoTokenMinted.TruncateInt⟩) = false →
      ExecuteMintExp k ctx req =
        (.err (.ledgerRejected (.addAddressToWhiteList
          ((k.AccAddressFromBech32 req.Account).getD [])
          ⟨k.GetDenom, req.DaoTokenMinted.TruncateInt⟩)), ctx)) ∧
    (k.ledgerAccepts ctx.ledger
        (.addAddressToWhiteList ((k.AccAddressFromBech32 req.Account).getD [])
          ⟨k.GetDenom, req.DaoTokenMinted.TruncateInt⟩) = true →
      k.ledgerAccepts
        (ctx.ledger ++ [.addAddressToWhiteList ((k.AccAddressFromBech32 req.Account).getD [])
          ⟨k.GetDenom, req.DaoTokenMinted.TruncateInt⟩])
        (.MintExpForAccount (coinsOf k.GetDenom req.DaoTokenMinted.TruncateInt)
          ((k.AccAddressFromBech32 req.Account).getD [])) = false →
      (ExecuteMintExp k ctx req).1 =
        .err (.ledgerRejected (.MintExpForAccount
          (coinsOf k.GetDenom req.DaoTokenMinted.TruncateInt)
          ((k.AccAddressFromBech32 req.Account).getD []))) ∧
      (ExecuteMintExp k ctx req).2.mintStore = ctx.mintStore ∧
      (ExecuteMintExp k ctx req).2.burnStore = ctx.burnStore ∧
      (ExecuteMintExp k ctx req).2.ledger = ctx.ledger ++
        [.addAddressToWhiteList ((k.AccAddressFromBech32 req.Account).getD [])
          ⟨k.GetDenom, req.DaoTokenMinted.TruncateInt⟩]) := by
  have hn : ¬ req.DaoTokenMinted.TruncateInt < 0 := by omega
  have hc := NewCoins_of_nonneg k.GetDenom _ h0
  constructor
  · intro hwl
    simp [ExecuteMintExp, ExecuteMintExp.run, eqNewDec, NewCoin, hn, callLedger, hwl]
  · intro hwl hmint
    simp [ExecuteMintExp, ExecuteMintExp.run, eqNewDec, NewCoin, hn, callLedger, hwl, hc, hmint]

/-- Scenario of C11: 7 minted; a ledger that rejects the registration, and a ledger
that registers the account and rejects the mint. -/
theorem ExecuteMintExp_ledger_failure_witness :
    ExecuteMintExp (mintScenarioKeeper false true)
        (mintCtx (aliceMint 0 7 StatusOnGoingRequest)) (aliceMint 0 7 StatusOnGoingRequest) =
      (.err (.ledgerRejected (.addAddressToWhiteList alice ⟨"uexp", 7⟩)),
        mintCtx (aliceMint 0 7 StatusOnGoingRequest)) ∧
    ((ExecuteMintExp (mintScenarioKeeper true false)
        (mintCtx (aliceMint 0 7 StatusOnGoingRequest)) (aliceMint 0 7 StatusOnGoingRequest)).1 =
        .err (.ledgerRejected (.MintExpForAccount [⟨"uexp", 7⟩] alice)) ∧
      (ExecuteMintExp (mintScenarioKeeper true false)
        (mintCtx (aliceMint 0 7 StatusOnGoingRequest))
        (aliceMint 0 7 StatusOnGoingRequest)).2.mintStore =
        [((StatusOnGoingRequest, alice), aliceMint 0 7 StatusOnGoingRequest)] ∧
      (ExecuteMintExp (mintScenarioKeeper true false)
        (mintCtx (aliceMint 0 7 StatusOnGoingRequest))
        (aliceMint 0 7 StatusOnGoingRequest)).2.burnStore = [] ∧
      (ExecuteMintExp (mintScenarioKeeper true false)
        (mintCtx (aliceMint 0 7 StatusOnGoingRequest))
        (aliceMint 0 7 StatusOnGoingRequest)).2.ledger =
        [] ++ [.addAddressToWhiteList alice ⟨"uexp", 7⟩]) :=
  ⟨(ExecuteMintExp_ledger_failure (mintScenarioKeeper false true)
      (mintCtx (aliceMint 0 7 StatusOnGoingRequest)) (aliceMint 0 7 StatusOnGoingRequest)
      (by decide)).1 (by decide),
   (ExecuteMintExp_ledger_failure (mintScenarioKeeper true false)
      (mintCtx (aliceMint 0 7 StatusOnGoingRequest)) (aliceMint 0 7 StatusOnGoingRequest)
      (by decide)).2 (by decide) (by decide)⟩

/-- C12. Lookup by account: `GetBurnRequest` and `GetMintRequest` return the record
of the first bucket, in the order Complete, NoFunds, Pending, Expired, that has a key
for the account (so a Complete record wins over a Pending one), and they fail with
`ErrInvalidKey` exactly when none of the four keys exists. -/
theorem GetRequest_first_match (ctx : Ctx) (a : AccAddress) :
    GetBurnRequest ctx a =
      (match ctx.burnStore.firstMatch a with
        | some r => .ok r
        | none => .error .ErrInvalidKey) ∧
    GetMintRequest ctx a =
      (match ctx.mintStore.firstMatch a with
        | some r => .ok r
        | none => .error .ErrInvalidKey) ∧
    (GetBurnRequest ctx a = .error .ErrInvalidKey ↔
      ∀ status, ctx.burnStore.Has (status, a) = false) ∧
    (GetMintRequest ctx a = .error .ErrInvalidKey ↔
      ∀ status, ctx.mintStore.Has (status, a) = false) ∧
    (∀ rc, ctx.burnStore.Get (StatusCompleteRequest, a) = some rc →
      GetBurnRequest ctx a = .ok rc) ∧
    (∀ rc, ctx.mintStore.Get (StatusCompleteRequest, a) = some rc →
      GetMintRequest ctx a = .ok rc) := by
  refine ⟨?_, ?_, ?_, ?_, ?_, ?_⟩
  · cases h1 : ctx.burnStore.Get (StatusCompleteRequest, a) <;>
    cases h2 : ctx.burnStore.Get (StatusNoFundRequest, a) <;>
    cases h3 : ctx.burnStore.Get (StatusOnGoingRequest, a) <;>
    cases h4 : ctx.burnStore.Get (StatusExpiredRequest, a) <;>
    simp [GetBurnRequest, GetBurnRequestByKey, Store.Has, Store.firstMatch, lookupOrder,
      List.findSome?, h1, h2, h3, h4]
  · cases h1 : ctx.mintStore.Get (StatusCompleteRequest, a) <;>
    cases h2 : ctx.mintStore.Get (StatusNoFundRequest, a) <;>
    cases h3 : ctx.mintStore.Get (StatusOnGoingRequest, a) <;>
    cases h4 : ctx.mintStore.Get (StatusExpiredRequest, a) <;>
    simp [GetMintRequest, GetMintRequestByKey, Store.Has, Store.firstMatch, lookupOrder,
      List.findSome?, h1, h2, h3, h4]
  · constructor
    · intro h status
      cases h1 : ctx.burnStore.Get (StatusCompleteRequest, a) <;>
      cases h2 : ctx.burnStore.Get (StatusNoFundRequest, a) <;>
      cases h3 : ctx.burnStore.Get (StatusOnGoingRequest, a) <;>
      cases h4 : ctx.burnStore.Get (StatusExpiredRequest, a) <;>
      simp [GetBurnRequest, GetBurnRequestByKey, Store.Has, h1, h2, h3, h4] at h
      cases status <;> simp [Store.Has, h1, h2, h3, h4]
    · intro h
      have h1 := h StatusCompleteRequest
      have h2 := h StatusNoFundRequest
      have h3 := h StatusOnGoingRequest
      have h4 := h StatusExpiredRequest
      simp [GetBurnRequest, h1, h2, h3, h4]
  · constructor
    · intro h status
      cases h1 : ctx.mintStore.Get (StatusCompleteRequest, a) <;>
      cases h2 : ctx.mintStore.Get (StatusNoFundRequest, a) <;>
      cases h3 : ctx.mintStore.Get (StatusOnGoingRequest, a) <;>
      cases h4 : ctx.mintStore.Get (StatusExpiredRequest, a) <;>
      simp [GetMintRequest, GetMintRequestByKey, Store.Has, h1, h2, h3, h4] at h
      cases status <;> simp [Store.Has, h1, h2, h3, h4]
    · intro h
      have h1 := h StatusCompleteRequest
      have h2 := h StatusNoFundRequest
      have h3 := h StatusOnGoingRequest
      have h4 := h StatusExpiredRequest
      simp [GetMintRequest, h1, h2, h3, h4]
  · intro rc h
    simp [GetBurnRequest, GetBurnRequestByKey, Store.Has, h]
  · intro rc h
    simp [GetMintRequest, GetMintRequestByKey, Store.Has, h]

/-- Scenario of C12: `alice` has a Pending and a Complete burn record; the lookup
returns the Complete one. -/
theorem GetRequest_first_match_witness :
    GetBurnRequest
      ⟨[((StatusOnGoingRequest, alice), aliceBurn (some ⟨"uexp", 100⟩)),
        ((StatusCompleteRequest, alice), ⟨"alice", none, 0, StatusCompleteRequest⟩)], [], [], 10⟩
      alice = .ok ⟨"alice", none, 0, StatusCompleteRequest⟩ :=
  (GetRequest_first_match
    ⟨[((StatusOnGoingRequest, alice), aliceBurn (some ⟨"uexp", 100⟩)),
      ((StatusCompleteRequest, alice), ⟨"alice", none, 0, StatusCompleteRequest⟩)], [], [], 10⟩
    alice).2.2.2.2.1 ⟨"alice", none, 0, StatusCompleteRequest⟩ (by decide)

/-- C13. Put / iterate round trip: after `SetBurnRequest r` for a request with a
decodable account, `GetBurnRequestsByStatus r.Status` is the bucket read in key
order, it contains `r`, the bucket holds exactly one entry for the address of `r`
and that entry is `r`, and every record stored before under another key is still
returned by the iteration of its bucket. -/
theorem SetBurnRequest_then_iterate (k : ExpKeeper) (ctx : Ctx) (r : BurnRequest)
    (a : AccAddress) (hacc : k.AccAddressFromBech32 r.Account = some a) :
    ∃ ctx1, SetBurnRequest k ctx r = some ctx1 ∧
      r ∈ GetBurnRequestsByStatus ctx1 r.Status ∧
      GetBurnRequestsByStatus ctx1 r.Status = (ctx1.burnStore.bucket r.Status).map Prod.snd ∧
      (ctx1.burnStore.bucket r.Status).filter (fun e => decide (e.1.2 = a)) =
        [((r.Status, a), r)] ∧
      ∀ key x, key ≠ (r.Status, a) → ctx.burnStore.Get key = some x →
        x ∈ GetBurnRequestsByStatus ctx1 key.1 := by
  refine ⟨{ ctx with burnStore := ctx.burnStore.Set (r.Status, a) r }, ?_, ?_, ?_, ?_, ?_⟩
  · simp [SetBurnRequest, hacc]
  · rw [GetBurnRequestsByStatus_eq]
    refine List.mem_map.mpr ⟨((r.Status, a), r), ?_, rfl⟩
    rw [Store.mem_bucket]
    exact ⟨by simp [Store.Set], rfl⟩
  · exact GetBurnRequestsByStatus_eq _ _
  · exact Store.bucket_Set_filter _ _ _ _
  · intro key x hne hget
    rw [GetBurnRequestsByStatus_eq]
    refine List.mem_map.mpr ⟨(key, x), ?_, rfl⟩
    rw [Store.mem_bucket]
    exact ⟨Store.mem_Set_of_ne _ _ _ _ _ hne (Store.mem_of_Get _ _ _ hget), rfl⟩

/-- Scenario of C13: the Pending request of `alice` is put into an empty store. -/
theorem SetBurnRequest_then_iterate_witness :
    ∃ ctx1, SetBurnRequest (scenarioKeeper 0 true true) ⟨[], [], [], 10⟩
        (aliceBurn (some ⟨"uexp", 100⟩)) = some ctx1 ∧
      aliceBurn (some ⟨"uexp", 100⟩) ∈ GetBurnRequestsByStatus ctx1 StatusOnGoingRequest ∧
      GetBurnRequestsByStatus ctx1 StatusOnGoingRequest =
        (ctx1.burnStore.bucket StatusOnGoingRequest).map Prod.snd ∧
      (ctx1.burnStore.bucket StatusOnGoingRequest).filter (fun e => decide (e.1.2 = alice)) =
        [((StatusOnGoingRequest, alice), aliceBurn (some ⟨"uexp", 100⟩))] ∧
      ∀ key x, key ≠ (StatusOnGoingRequest, alice) →
        (⟨[], [], [], 10⟩ : Ctx).burnStore.Get key = some x →
        x ∈ GetBurnRequestsByStatus ctx1 key.1 :=
  SetBurnRequest_then_iterate (scenarioKeeper 0 true true) ⟨[], [], [], 10⟩
    (aliceBurn (some ⟨"uexp", 100⟩)) alice (by decide)

/-- C14. Expiry check: `ValidateBurnRequestByTime` and `ValidateMintRequestByTime`
return true exactly when `RequestTime + period < BlockTime`, the period being the
one both read (`GetBurnExpPeriod`); in particular they return false when
`RequestTime + period = BlockTime`.  Both are functions of the keeper, the context
and the request into `Bool`: they return no context, nothing is written. -/
theorem ValidateRequestByTime_iff (k : ExpKeeper) (ctx : Ctx) (burnRequest : BurnRequest)
    (mintRequest : MintRequest) :
    (ValidateBurnRequestByTime k ctx burnRequest = true ↔
      burnRequest.RequestTime + k.GetBurnExpPeriod < ctx.BlockTime) ∧
    (ValidateMintRequestByTime k ctx mintRequest = true ↔
      mintRequest.RequestTime + k.GetBurnExpPeriod < ctx.BlockTime) ∧
    (burnRequest.RequestTime + k.GetBurnExpPeriod = ctx.BlockTime →
      ValidateBurnRequestByTime k ctx burnRequest = false) ∧
    (mintRequest.RequestTime + k.GetBurnExpPeriod = ctx.BlockTime →
      ValidateMintRequestByTime k ctx mintRequest = false) := by
  refine ⟨?_, ?_, ?_, ?_⟩
  · simp [ValidateBurnRequestByTime]
  · simp [ValidateMintRequestByTime]
  · intro h
    simp [ValidateBurnRequestByTime, h]
  · intro h
    simp [ValidateMintRequestByTime, h]

/-- Scenario of C14: requested at 0 with period 60, the check is false at block time
60 and true at block time 61. -/
theorem ValidateRequestByTime_iff_witness :
    ValidateBurnRequestByTime (scenarioKeeper 0 true true) ⟨[], [], [], 60⟩ (aliceBurn none) =
      false ∧
    ValidateMintRequestByTime (scenarioKeeper 0 true true) ⟨[], [], [], 60⟩
      (aliceMint 0 0 StatusOnGoingRequest) = false ∧
    ValidateBurnRequestByTime (scenarioKeeper 0 true true) ⟨[], [], [], 61⟩ (aliceBurn none) =
      true :=
  ⟨(ValidateRequestByTime_iff (scenarioKeeper 0 true true) ⟨[], [], [], 60⟩ (aliceBurn none)
      (aliceMint 0 0 StatusOnGoingRequest)).2.2.1 (by decide),
   (ValidateRequestByTime_iff (scenarioKeeper 0 true true) ⟨[], [], [], 60⟩ (aliceBurn none)
      (aliceMint 0 0 StatusOnGoingRequest)).2.2.2 (by decide),
   (ValidateRequestByTime_iff (scenarioKeeper 0 true true) ⟨[], [], [], 61⟩ (aliceBurn none)
      (aliceMint 0 0 StatusOnGoingRequest)).1.mpr (by decide)⟩

/-- C15 (code as written). Scenario `r = 100`, price 2, pool 80: the one burn call
of the shortfall path takes the coin set just paid, 80 of the stable asset `token`,
from the account; it is not 40 of the value token `uexp`. -/
theorem ExecuteBurnExp_shortfall_burn_scenario :
    (ExecuteBurnExp (scenarioKeeper 80 true true) (burnCtx (aliceBurn (some ⟨"uexp", 100⟩)))
      (aliceBurn (some ⟨"uexp", 100⟩))).ctx.ledger =
        [.SendCoinsFromModuleToAccount alice [⟨"token", 80⟩],
         .BurnExpFromAccount [⟨"token", 80⟩] alice] ∧
    (ExecuteBurnExp (scenarioKeeper 80 true true) (burnCtx (aliceBurn (some ⟨"uexp", 100⟩)))
      (aliceBurn (some ⟨"uexp", 100⟩))).ctx.ledger ≠
        [.SendCoinsFromModuleToAccount alice [⟨"token", 80⟩],
         .BurnExpFromAccount [⟨"uexp", 40⟩] alice] := by
  decide

/-- C16 (code as written). Scenario `r = 100`, price 2, pool 0: the guard of line 295
is not taken and the shortfall path runs: the call returns nil after a transfer call
and a burn call with empty coin sets, the store is unchanged, and the coin the
caller sees has been overwritten with `owed - pooled = 200`. -/
theorem ExecuteBurnExp_empty_pool_scenario :
    ExecuteBurnExp (scenarioKeeper 0 true true) (burnCtx (aliceBurn (some ⟨"uexp", 100⟩)))
      (aliceBurn (some ⟨"uexp", 100⟩)) =
        ⟨.ok,
         ⟨[((StatusOnGoingRequest, alice), aliceBurn (some ⟨"uexp", 100⟩))], [],
          [.SendCoinsFromModuleToAccount alice [], .BurnExpFromAccount [] alice], 10⟩,
         some ⟨"uexp", 200⟩⟩ := by
  decide

/-- C17. No stale keys on a status transition: when a call of `ExecuteBurnExp` or
`ExecuteMintExp` on a request of status `s` (decodable account) ends with the
request's status being `s'` other than `s`, the key `(s', account)` holds that
record and the key `(s, account)` is absent. -/
theorem Execute_no_stale_key (k : ExpKeeper) (ctx : Ctx) (a : AccAddress) (s' : StatusRequest) :
    (∀ req : BurnRequest, k.AccAddressFromBech32 req.Account = some a →
      (ExecuteBurnExp.run k ctx req).2.Status = s' → s' ≠ req.Status →
      (ExecuteBurnExp k ctx req).ret = .ok ∧
      (ExecuteBurnExp k ctx req).ctx.burnStore.Get (s', a) =
        some (ExecuteBurnExp.run k ctx req).2 ∧
      (ExecuteBurnExp k ctx req).ctx.burnStore.Get (req.Status, a) = none) ∧
    (∀ req : MintRequest, k.AccAddressFromBech32 req.Account = some a →
      (ExecuteMintExp.run k ctx req).2.Status = s' → s' ≠ req.Status →
      (ExecuteMintExp k ctx req).1 = .ok ∧
      (ExecuteMintExp k ctx req).2.mintStore.Get (s', a) =
        some (ExecuteMintExp.run k ctx req).2 ∧
      (ExecuteMintExp k ctx req).2.mintStore.Get (req.Status, a) = none) := by
  constructor
  · intro req hacc hst hne
    obtain ⟨-, hstore, -⟩ := ExecuteBurnExp_effect k ctx req a hacc
    rcases hstore with ⟨-, hsame⟩ | ⟨hset, hfin, hret⟩
    · exact absurd (hst.symm.trans hsame) hne
    · have hs : s' = StatusCompleteRequest := by
        rw [← hst, hfin]
      subst hs
      refine ⟨hret, ?_, ?_⟩
      · rw [hset, hfin]
        exact Store.Get_Set_self _ _ _
      · rw [hset, Store.Get_Set_of_ne _ _ _ _ (by simpa using fun h => hne h.symm),
          Store.Get_Delete_self]
  · intro req hacc hst hne
    obtain ⟨-, hstore⟩ := ExecuteMintExp_effect k ctx req
    rcases hstore with ⟨-, hsame⟩ | ⟨hnone, -⟩ | ⟨b, hb, hset, hfin, hret⟩
    · exact absurd (hst.symm.trans hsame) hne
    · rw [hacc] at hnone
      exact absurd hnone (by simp)
    · have hab : b = a := by
        rw [hacc] at hb
        exact (Option.some.inj hb).symm
      subst hab
      have hs : s' = StatusExpiredRequest := by
        rw [← hst, hfin]
      subst hs
      refine ⟨hret, ?_, ?_⟩
      · rw [hset, hfin]
        exact Store.Get_Set_self _ _ _
      · rw [hset, Store.Get_Set_of_ne _ _ _ _ (by simpa using fun h => hne h.symm),
          Store.Get_Delete_self]

/-- Scenario of C17: the Pending burn request of C1 ends with status Complete; it is
found under Complete and no longer under Pending. -/
theorem Execute_no_stale_key_witness :
    (ExecuteBurnExp (scenarioKeeper 300 true true) (burnCtx (aliceBurn (some ⟨"uexp", 100⟩)))
      (aliceBurn (some ⟨"uexp", 100⟩))).ret = .ok ∧
    (ExecuteBurnExp (scenarioKeeper 300 true true) (burnCtx (aliceBurn (some ⟨"uexp", 100⟩)))
      (aliceBurn (some ⟨"uexp", 100⟩))).ctx.burnStore.Get (StatusCompleteRequest, alice) =
        some (ExecuteBurnExp.run (scenarioKeeper 300 true true)
          (burnCtx (aliceBurn (some ⟨"uexp", 100⟩))) (aliceBurn (some ⟨"uexp", 100⟩))).2 ∧
    (ExecuteBurnExp (scenarioKeeper 300 true true) (burnCtx (aliceBurn (some ⟨"uexp", 100⟩)))
      (aliceBurn (some ⟨"uexp", 100⟩))).ctx.burnStore.Get (StatusOnGoingRequest, alice) =
        none :=
  (Execute_no_stale_key (scenarioKeeper 300 true true)
    (burnCtx (aliceBurn (some ⟨"uexp", 100⟩))) alice StatusCompleteRequest).1
    (aliceBurn (some ⟨"uexp", 100⟩)) (by decide) (by decide) (by decide)

/-- C18 (as stated, refuted). An Expired burn request of `alice` with 100 left,
price 2, pool 300: after `ExecuteBurnExp` the Expired bucket no longer holds it and
the Complete bucket holds it with status Complete. -/
theorem ExecuteBurnExp_terminal_counterexample :
    (burnCtx ⟨"alice", some ⟨"uexp", 100⟩, 0, StatusExpiredRequest⟩).burnStore.Get
      (StatusExpiredRequest, alice) = some ⟨"alice", some ⟨"uexp", 100⟩, 0, StatusExpiredRequest⟩ ∧
    (ExecuteBurnExp (scenarioKeeper 300 true true)
      (burnCtx ⟨"alice", some ⟨"uexp", 100⟩, 0, StatusExpiredRequest⟩)
      ⟨"alice", some ⟨"uexp", 100⟩, 0, StatusExpiredRequest⟩).ctx.burnStore.Get
        (StatusExpiredRequest, alice) = none ∧
    (ExecuteBurnExp (scenarioKeeper 300 true true)
      (burnCtx ⟨"alice", some ⟨"uexp", 100⟩, 0, StatusExpiredRequest⟩)
      ⟨"alice", some ⟨"uexp", 100⟩, 0, StatusExpiredRequest⟩).ctx.burnStore.Get
        (StatusCompleteRequest, alice) = some ⟨"alice", none, 0, StatusCompleteRequest⟩ := by
  decide

/-- C18 (amended). For a request whose status is Complete, NoFunds or Expired,
`ExecuteBurnExp` and `ExecuteMintExp` leave the Pending bucket of their collection
exactly as it was (nothing is ever stored under Pending); the only keys whose
content can change are keys of the request's own status and keys of the terminal
statuses Complete (burn) or Complete and Expired (mint). -/
theorem Execute_terminal_never_pending (k : ExpKeeper) (ctx : Ctx) :
    (∀ req : BurnRequest, req.Status ≠ StatusOnGoingRequest →
      (∀ b, (ExecuteBurnExp k ctx req).ctx.burnStore.Get (StatusOnGoingRequest, b) =
        ctx.burnStore.Get (StatusOnGoingRequest, b)) ∧
      (∀ key, (ExecuteBurnExp k ctx req).ctx.burnStore.Get key ≠ ctx.burnStore.Get key →
        key.1 = req.Status ∨ key.1 = StatusCompleteRequest)) ∧
    (∀ req : MintRequest, req.Status ≠ StatusOnGoingRequest →
      (∀ b, (ExecuteMintExp k ctx req).2.mintStore.Get (StatusOnGoingRequest, b) =
        ctx.mintStore.Get (StatusOnGoingRequest, b)) ∧
      (∀ key, (ExecuteMintExp k ctx req).2.mintStore.Get key ≠ ctx.mintStore.Get key →
        key.1 = req.Status ∨ key.1 = StatusCompleteRequest ∨ key.1 = StatusExpiredRequest)) := by
  constructor
  · intro req hst
    have hkeys : ∀ key, (ExecuteBurnExp k ctx req).ctx.burnStore.Get key ≠ ctx.burnStore.Get key →
        key.1 = req.Status ∨ key.1 = StatusCompleteRequest := by
      intro key hchg
      cases hacc : k.AccAddressFromBech32 req.Account with
      | none =>
        rw [ExecuteBurnExp_eq_of_invalid k ctx req hacc] at hchg
        exact absurd rfl hchg
      | some a =>
        have hstore := ExecuteBurnExp_refiled k ctx req a hacc
        rcases hstore with hsame | ⟨rec, -, -, -, -, -, -, h7⟩
        · exact absurd (by rw [hsame]) hchg
        · by_contra hcon
          push_neg at hcon
          refine hchg (h7 key ?_ ?_)
          · intro h
            exact hcon.1 (by rw [h])
          · intro h
            exact hcon.2 (by rw [h])
    refine ⟨fun b => ?_, hkeys⟩
    by_contra hchg
    rcases hkeys _ hchg with h | h
    · exact hst h.symm
    · simp at h
  · intro req hst
    have hkeys : ∀ key, (ExecuteMintExp k ctx req).2.mintStore.Get key ≠ ctx.mintStore.Get key →
        key.1 = req.Status ∨ key.1 = StatusCompleteRequest ∨ key.1 = StatusExpiredRequest := by
      intro key hchg
      obtain ⟨-, hstore⟩ := ExecuteMintExp_effect k ctx req
      rcases hstore with ⟨hsame, -⟩ | ⟨-, hdel⟩ | ⟨a, -, hset, -, -⟩
      · exact absurd (by rw [hsame]) hchg
      · by_contra hcon
        push_neg at hcon
        refine hchg ?_
        rw [hdel, Store.Get_Delete_of_ne]
        intro h
        exact hcon.1 (by rw [h])
      · by_contra hcon
        push_neg at hcon
        refine hchg ?_
        rw [hset, Store.Get_Set_of_ne, Store.Get_Delete_of_ne]
        · intro h
          exact hcon.1 (by rw [h])
        · intro h
          exact hcon.2.2 (by rw [h])
    refine ⟨fun b => ?_, hkeys⟩
    by_contra hchg
    rcases hkeys _ hchg with h | h | h
    · exact hst h.symm
    · simp at h
    · simp at h

/-- Scenario of C18 (amended): the Expired burn request of the counterexample leaves
the Pending bucket of `alice` empty, as it was. -/
theorem Execute_terminal_never_pending_witness :
    (ExecuteBurnExp (scenarioKeeper 300 true true)
      (burnCtx ⟨"alice", some ⟨"uexp", 100⟩, 0, StatusExpiredRequest⟩)
      ⟨"alice", some ⟨"uexp", 100⟩, 0, StatusExpiredRequest⟩).ctx.burnStore.Get
        (StatusOnGoingRequest, alice) =
      (burnCtx ⟨"alice", some ⟨"uexp", 100⟩, 0, StatusExpiredRequest⟩).burnStore.Get
        (StatusOnGoingRequest, alice) :=
  ((Execute_terminal_never_pending (scenarioKeeper 300 true true)
    (burnCtx ⟨"alice", some ⟨"uexp", 100⟩, 0, StatusExpiredRequest⟩)).1
    ⟨"alice", some ⟨"uexp", 100⟩, 0, StatusExpiredRequest⟩ (by decide)).1 alice

/-- C19. Non-negative remaining amount: for a burn request whose amount left is
non-negative (whatever the price and the pooled balance), after any number of
successive `ExecuteBurnExp` calls on the request the amount the caller sees, when
present, is non-negative; and if the amounts left stored in the burn collection were
non-negative, they still are. -/
theorem executeBurnTimes_nonneg (k : ExpKeeper) (n : Nat) (ctx : Ctx) (req : BurnRequest)
    (hreq : ∀ c, req.BurnTokenLeft = some c → 0 ≤ c.Amount) :
    (∀ c, (executeBurnTimes k n ctx req).2.BurnTokenLeft = some c → 0 ≤ c.Amount) ∧
    (StoredAmountsNonneg ctx.burnStore →
      StoredAmountsNonneg (executeBurnTimes k n ctx req).1.burnStore) := by
  induction n generalizing ctx req with
  | zero => exact ⟨hreq, fun h => h⟩
  | succ m ih =>
    have hcoin := ExecuteBurnExp_coin_nonneg k ctx req hreq
    obtain ⟨h1, h2⟩ := ih (ExecuteBurnExp k ctx req).ctx
      { req with BurnTokenLeft := (ExecuteBurnExp k ctx req).BurnTokenLeft } hcoin
    exact ⟨h1, fun hstore => h2 (StoredAmountsNonneg_step k ctx req hstore hreq)⟩

/-- Scenario of C19: three successive calls on the request of C2 (pool 80, then
empty); the caller sees 120, then 240, then 480 left. -/
theorem executeBurnTimes_nonneg_witness :
    (∀ c, (executeBurnTimes (scenarioKeeper 80 true true) 3
        (burnCtx (aliceBurn (some ⟨"uexp", 100⟩)))
        (aliceBurn (some ⟨"uexp", 100⟩))).2.BurnTokenLeft = some c → 0 ≤ c.Amount) ∧
    (StoredAmountsNonneg (burnCtx (aliceBurn (some ⟨"uexp", 100⟩))).burnStore →
      StoredAmountsNonneg (executeBurnTimes (scenarioKeeper 80 true true) 3
        (burnCtx (aliceBurn (some ⟨"uexp", 100⟩)))
        (aliceBurn (some ⟨"uexp", 100⟩))).1.burnStore) :=
  executeBurnTimes_nonneg (scenarioKeeper 80 true true) 3
    (burnCtx (aliceBurn (some ⟨"uexp", 100⟩))) (aliceBurn (some ⟨"uexp", 100⟩))
    (by
      intro c hleft
      have hc : (⟨"uexp", 100⟩ : Coin) = c := by simpa [aliceBurn] using hleft
      subst hc
      decide)

/-- C20. Period validation: `validatePeriod` returns nil exactly for a
`time.Duration` strictly greater than zero; a zero duration, a negative duration
and a value of any other type are errors. -/
theorem validatePeriod_nil_iff (i : ParamValue) :
    (validatePeriod i = none ↔ ∃ v, i = .duration v ∧ 0 < v) ∧
    validatePeriod (.duration 0) = some (.timeMustBePositive 0) ∧
    (∀ v, v < 0 → validatePeriod (.duration v) = some (.timeMustBePositive v)) ∧
    (∀ n, validatePeriod (.uint64 n) = some .invalidParameterType) ∧
    (∀ s, validatePeriod (.str s) = some .invalidParameterType) ∧
    validatePeriod .other = some .invalidParameterType := by
  refine ⟨?_, by simp [validatePeriod], ?_, fun _ => rfl, fun _ => rfl, rfl⟩
  · cases i with
    | duration v =>
      by_cases hv : v ≤ 0
      · simp [validatePeriod, hv]
      · simp [validatePeriod, hv]
        omega
    | uint64 n => simp [validatePeriod]
    | str s => simp [validatePeriod]
    | other => simp [validatePeriod]
  · intro v hv
    have : v ≤ 0 := by omega
    simp [validatePeriod, this]

/-- Scenario of C20: a duration of -5 is rejected. -/
theorem validatePeriod_nil_iff_witness :
    validatePeriod (.duration (-5)) = some (.timeMustBePositive (-5)) :=
  (validatePeriod_nil_iff .other).2.2.1 (-5) (by decide)

end Craft
